import Mathlib

/-! Verification of route53-cli, `aws_utils/route53.go`.

A shallow embedding of the record-name token (`RecordName`), the nameserver
comparison (`IsNSMatch`) and the hosted-zone search (`GetRecordSetAliases`),
followed by the properties established about them.

Conventions of the embedding.

* A Go `string` is a finite sequence of bytes; it is represented by `Str`, a list
  of characters.  Every string operation the source uses (`+`, `==`,
  `strings.HasPrefix`, `strings.Join`, `strings.Split`, `strings.Replace`,
  `strings.TrimLeft`, `strings.TrimRight`) is a sequence operation and is
  transcribed on lists.
* A Go function that can stop with a run-time panic (an index or slice expression
  out of range, a nil dereference, an explicit `panic(err)`) returns an `Outcome`.
* A Go result pair `(value, error)` in which exactly one side is meaningful is an
  `Except Err value`; where the source distinguishes more combinations (a nil slice
  from an empty one, a nil error together with a nil value) the components are kept
  as separate `Option`s.
* The functions the source calls and does not define (`net/url`, the Route 53 API, the
  resolver) are the fields of `Env`.  `ParseHostname` transcribes `url.Parse` followed
  by `Hostname()` from Go's `net/url` for URLs whose authority is a plain host name;
  `Env.AgreesWithNetURL` says that an environment's `Hostname` is that function on the
  URLs `StripRecord` hands to it, up to the text of an error.
-/

namespace Route53

/-! ## Strings -/

/-- Go `string`. -/
abbrev Str := List Char

/-- Go `error` values, identified by their message. -/
abbrev Err := String

deriving instance DecidableEq for Except

/-- Result of running a Go function body: it returns a value or panics. -/
inductive Outcome (α : Type) where
  | ret : α → Outcome α
  | panic : String → Outcome α
  deriving DecidableEq, Repr

namespace Outcome

/-- Sequencing: a panic in the first computation is the panic of the whole. -/
def bind {α β : Type} : Outcome α → (α → Outcome β) → Outcome β
  | ret a, f => f a
  | panic m, _ => panic m

instance : Monad Outcome where
  pure := ret
  bind := bind

end Outcome

/-- Index expression `xs[i]`; out of range is the run-time panic. -/
def index {α : Type} (xs : List α) (i : Nat) : Outcome α :=
  match xs[i]? with
  | some x => .ret x
  | none => .panic "index out of range"

/-- Slice expression `xs[lo:hi]`; it panics unless `lo ≤ hi ≤ len(xs)`. -/
def slice {α : Type} (xs : List α) (lo hi : Nat) : Outcome (List α) :=
  if lo ≤ hi ∧ hi ≤ xs.length then .ret ((xs.take hi).drop lo)
  else .panic "slice bounds out of range"

/-- The one-byte string `"."`, the label separator. -/
def dot : Str := ['.']

/-- Modelled from the spec: the constant `WildCard` is declared outside the listed
source; the spec gives the wildcard marker as the literal `*` (and the comments of
`GetAllOptionsForZoneName` use it so). -/
def WildCard : Str := ['*']

/-- Go `strings.HasPrefix(s, prefix)`. -/
def HasPrefix (s pre : Str) : Bool := pre.isPrefixOf s

/-- Go `strings.Join(elems, sep)`: no element gives `""`, one element gives that element,
otherwise the elements with `sep` between consecutive ones. -/
def Join : List Str → Str → Str
  | [], _ => []
  | [a], _ => a
  | a :: b :: rest, sep => a ++ sep ++ Join (b :: rest) sep

/-- Go `strings.Split(s, sep)` for a one-byte separator `sep`: the pieces of `s` between
the occurrences of `sep`; `Count(s, sep) + 1` pieces, so `""` gives `[""]`. -/
def Split : Str → Char → List Str
  | [], _ => [[]]
  | x :: xs, sep =>
    if x = sep then [] :: Split xs sep
    else
      match Split xs sep with
      | [] => [[x]]
      | piece :: pieces => (x :: piece) :: pieces

/-- Number of dot-separated labels of a name: `len(strings.Split(s, "."))`. -/
def labelCount (s : Str) : Nat := (Split s '.').length

/-- First dot-separated label of a name: `strings.Split(s, ".")[0]`. -/
def firstLabel (s : Str) : Str := (Split s '.').headD []

/-- The name `s` with its first dot-separated label replaced by `label`: the pieces of
`strings.Split(s, ".")` after the first, behind `label`, joined by `"."` again. -/
def withFirstLabel (s label : Str) : Str := Join (label :: (Split s '.').tail) ['.']

/-- Go `strings.Replace(s, old, new, 1)`: `s` itself when `old == new` or `old` does not
occur, otherwise `s` with the first (leftmost) occurrence of `old` replaced by `new`;
an empty `old` occurs at the very beginning. -/
def replaceFirstAux (old new : Str) : Str → Str
  | [] => if old = [] then new else []
  | c :: cs =>
    if old.isPrefixOf (c :: cs) then new ++ (c :: cs).drop old.length
    else c :: replaceFirstAux old new cs

/-- Go `strings.Replace(s, old, new, 1)`. -/
def Replace1 (s old new : Str) : Str :=
  if old = new then s else replaceFirstAux old new s

/-- Go `strings.TrimLeft(s, cutset)`: drops leading bytes that belong to `cutset`. -/
def TrimLeft (s cutset : Str) : Str := s.dropWhile (fun c => decide (c ∈ cutset))

/-- Go `strings.TrimRight(s, cutset)`: drops trailing bytes that belong to `cutset`. -/
def TrimRight (s cutset : Str) : Str :=
  (s.reverse.dropWhile (fun c => decide (c ∈ cutset))).reverse

/-! ## RecordName -/

/-- The struct `RecordName`: its four fields as `NewRecordName` fills them. -/
structure RecordName where
  rawURL : Str
  parsedURL : Str
  splittedURL : List Str
  hasWildCard : Bool
  deriving DecidableEq, Repr

namespace RecordName

/-- Method `HasWildCard`. -/
def HasWildCard (r : RecordName) : Bool := r.hasWildCard

/-- Method `GetParsedURL`. -/
def GetParsedURL (r : RecordName) : Str := r.parsedURL

/-- Method `GetWithWildCard`. -/
def GetWithWildCard (r : RecordName) : Outcome (Except Err Str) :=
  if r.splittedURL.length = 0 then .ret (.error "InvalidDNSWildCardTest")
  else do
    let first ← index r.splittedURL 0
    let withWc := Replace1 r.parsedURL first WildCard
    return .ok withWc

/-- Method `IsEqual`. -/
def IsEqual (r : RecordName) (other : Str) : Outcome Bool :=
  if other = r.parsedURL ++ dot ∨ other = r.parsedURL then .ret true
  else if r.hasWildCard = false ∧ HasPrefix other WildCard = true then do
    let first ← index r.splittedURL 0
    let otherWithNoWc := Replace1 other WildCard first
    if otherWithNoWc = r.parsedURL ++ dot ∨ otherWithNoWc = r.parsedURL then return true
    else return false
  else .ret false

/-- The `for idx, _ := range r.splittedURL` loop of `GetAllOptionsForZoneName`, run
over the remaining indices `idxs` with the accumulated `opts`. -/
def optionsLoop (r : RecordName) (size : Nat) : List Nat → List Str → Outcome (List Str)
  | [], opts => .ret opts
  | idx :: idxs, opts =>
    if idx = 0 ∧ r.hasWildCard = true then optionsLoop r size idxs opts
    else do
      let suffix ← slice r.splittedURL idx size
      let testRecord := Join suffix dot
      optionsLoop r size idxs (opts ++ [testRecord])

/-- Method `GetAllOptionsForZoneName`. -/
def GetAllOptionsForZoneName (r : RecordName) : Outcome (Except Err (List Str)) :=
  let opts : List Str := []
  let size := r.splittedURL.length
  if size = 1 ∧ r.hasWildCard = true then .ret (.error "InvalidRecordWildCard")
  else if size = 1 then .ret (.ok (opts ++ [r.parsedURL]))
  else if size = 2 ∧ r.hasWildCard = true then do
    let last ← index r.splittedURL (size - 1)
    return .ok [last]
  else if size = 2 then do
    let second ← index r.splittedURL 1
    return .ok (opts ++ [r.parsedURL, second])
  else if size = 3 ∧ r.hasWildCard = true then do
    let rest ← slice r.splittedURL 1 size
    let opts := opts ++ [Join rest dot]
    let last ← index r.splittedURL (size - 1)
    return .ok (opts ++ [last])
  else if size = 3 then do
    let opts := opts ++ [r.parsedURL]
    let rest ← slice r.splittedURL 1 size
    let opts := opts ++ [Join rest dot]
    let last ← index r.splittedURL (size - 1)
    return .ok (opts ++ [last])
  else do
    let opts ← optionsLoop r size (List.range size) opts
    return .ok opts

/-- The invariant of a constructed `RecordName`: the label list is not empty,
`parsedURL` is the labels joined by `"."`, and `hasWildCard` records whether the first
label is the wildcard marker. -/
def WellFormed (r : RecordName) : Prop :=
  r.splittedURL ≠ [] ∧ r.parsedURL = Join r.splittedURL dot ∧
    (r.hasWildCard = true ↔ r.splittedURL.head? = some WildCard)

instance (r : RecordName) : Decidable r.WellFormed := by
  unfold WellFormed; infer_instance

end RecordName

/-! ## The world outside the source file -/

/-- A `route53.HostedZone` as far as the source reads it: `Id` and `Name`. -/
structure HostedZone where
  Id : Str
  Name : Str
  deriving DecidableEq, Repr

/-- A `route53.ResourceRecordSet`: the source reads `Name` only; `Data` stands for the
rest of the record. -/
structure ResourceRecordSet where
  Name : Str
  Data : Str
  deriving DecidableEq, Repr

/-- What the source calls and does not define: `net/url`, the Route 53 API behind
`client()`, the system resolver and the session.  Each call is a function of its
arguments and answers with a value or an error. -/
structure Env where
  /-- `url.Parse(s)` followed by `u.Hostname()`; the error is the one of `url.Parse`. -/
  Hostname : Str → Except Err Str
  /-- `ListHostedZonesByName` with `DNSName`; the value is `output.HostedZones`. -/
  ListHostedZonesByName : Str → Except Err (List HostedZone)
  /-- `ListResourceRecordSets` with `HostedZoneId` and `StartRecordName`; the value is
  `output.ResourceRecordSets`. -/
  ListResourceRecordSets : Str → Str → Except Err (List ResourceRecordSet)
  /-- `GetHostedZone` with `Id`; the value is the name servers of `o.DelegationSet`, or
  `none` when `o` or `o.DelegationSet` is nil. -/
  GetHostedZone : Str → Except Err (Option (List Str))
  /-- `net.LookupNS(name)`; the value is the `Host` of each answer. -/
  LookupNS : Str → Except Err (List Str)
  /-- `*session.Config.Region`. -/
  Region : Str

/-- The mutable part of `Route53Manager`: the map `nameservers`. -/
structure Route53Manager where
  nameservers : Str → Option (List Str)

/-- The struct `GetRecordAliasesResult` as `GetRecordSetAliases` fills it. -/
structure GetRecordAliasesResult where
  Region : Str
  Records : List ResourceRecordSet
  HostedZone : Option HostedZone
  Stream : RecordName
  deriving DecidableEq, Repr

/-! ## Construction of a RecordName -/

/-- Function `StripRecord`. -/
def StripRecord (env : Env) (fullRecord : Str) : Except Err (List Str) :=
  let fullRecord :=
    if HasPrefix fullRecord "http://".toList = false ∧ HasPrefix fullRecord "https://".toList = false
    then "http://".toList ++ fullRecord else fullRecord
  match env.Hostname fullRecord with
  | .error err => .error err
  | .ok host => .ok (Split host '.')

/-- Function `NewRecordName`.  (`len(splitted)-1` is `-1` for an empty slice, out of range like
index `0` of an empty list.) -/
def NewRecordName (env : Env) (rawQuery : Str) : Outcome (Except Err RecordName) :=
  match StripRecord env rawQuery with
  | .error err => .ret (.error err)
  | .ok splitted => do
    let last ← index splitted (splitted.length - 1)
    let splitted ← if last = [] then slice splitted 0 (splitted.length - 1) else pure splitted
    let first ← index splitted 0
    return .ok
      { rawURL := rawQuery
        parsedURL := Join splitted dot
        splittedURL := splitted
        hasWildCard := decide (first = WildCard) }

/-! ## Nameserver comparison -/

/-- The statement `nsCounter[n] += 1` on a `map[string]int` kept as a list of entries
with distinct keys: a missing key reads as `0`. -/
def counterIncr : List (Str × Nat) → Str → List (Str × Nat)
  | [], n => [(n, 1)]
  | (k, c) :: rest, n => if k = n then (k, c + 1) :: rest else (k, c) :: counterIncr rest n

/-- The read `nsCounter[n]`: the count stored for `n`, `0` for a missing key. -/
def counterGet : List (Str × Nat) → Str → Nat
  | [], _ => 0
  | (k, c) :: rest, n => if k = n then c else counterGet rest n

/-- One `for _, n := range ns { if n != "" { nsCounter[n] += 1 } }` loop. -/
def countInto : List (Str × Nat) → List Str → List (Str × Nat)
  | nsCounter, [] => nsCounter
  | nsCounter, n :: ns =>
    if n ≠ [] then countInto (counterIncr nsCounter n) ns else countInto nsCounter ns

/-- Method `IsNSMatch`.  The last loop returns `true` at an entry with `c > 1`, whatever the
iteration order of the map. -/
def IsNSMatch (ns1 ns2 : List Str) : Bool :=
  let nsCounter : List (Str × Nat) := []
  let nsCounter := countInto nsCounter ns1
  let nsCounter := countInto nsCounter ns2
  nsCounter.any (fun entry => decide (entry.2 > 1))

/-- Method `GetNameservers`: the returned pair `(hosts, err)`; the map is read, not written. -/
def GetNameservers (env : Env) (r53m : Route53Manager) (recordName : Str) :
    List Str × Option Err :=
  match r53m.nameservers recordName with
  | some val => (val, none)
  | none =>
    match env.LookupNS (recordName ++ dot) with
    | .error err => ([], some err)
    | .ok nameserver => (nameserver.map (fun host => TrimRight host dot), none)

/-- Method `GetHZNameservers`: the returned pair `(hosts, err)` and the manager afterwards. -/
def GetHZNameservers (env : Env) (r53m : Route53Manager) (hzId : Str) :
    (List Str × Option Err) × Route53Manager :=
  let hzId := TrimLeft hzId "/hostedzone/".toList
  match r53m.nameservers hzId with
  | some val => ((val, none), r53m)
  | none =>
    match env.GetHostedZone hzId with
    | .error err => (([], some err), r53m)
    | .ok none => (([], none), r53m)
    | .ok (some nameServers) =>
      let nsResult := nameServers.map (fun ns => TrimRight ns dot)
      ((nsResult, none),
        { r53m with nameservers := fun key => if key = hzId then some nsResult else r53m.nameservers key })

/-- Method `isNSMatchRecord`; the hosted zone is a pointer, nil is `none`. -/
def isNSMatchRecord (env : Env) (r53m : Route53Manager) (hosedZone : Option HostedZone)
    (recordName : Str) : Outcome ((Bool × Option Err) × Route53Manager) :=
  match hosedZone with
  | none => .panic "nil pointer dereference"
  | some hz =>
    match GetHZNameservers env r53m hz.Id with
    | ((_, some err), r53m) => .ret ((false, some err), r53m)
    | ((hns, none), r53m) =>
      match GetNameservers env r53m recordName with
      | (_, some err) => .ret ((false, some err), r53m)
      | (rns, none) =>
        if IsNSMatch hns rns = false then .ret ((false, some "ErrNoNSMatch"), r53m)
        else .ret ((true, none), r53m)

/-! ## The hosted-zone search -/

/-- Method `getRecordAliases`. -/
def getRecordAliases (env : Env) (recordName zoneId : Str) :
    Except Err (List ResourceRecordSet) :=
  env.ListResourceRecordSets zoneId recordName

/-- The `for _, rs := range recordSets` loop of `getRecordsAliasesAndFilter`. -/
def filterLoop (recordStream : RecordName) :
    List ResourceRecordSet → List ResourceRecordSet → Outcome (List ResourceRecordSet)
  | [], result => .ret result
  | rs :: recordSets, result => do
    let eq ← recordStream.IsEqual rs.Name
    if eq = true then filterLoop recordStream recordSets (result ++ [rs])
    else filterLoop recordStream recordSets result

/-- Method `getRecordsAliasesAndFilter`; on success the slice returned is the non-nil
`result`. -/
def getRecordsAliasesAndFilter (env : Env) (recordName zoneId : Str)
    (recordStream : RecordName) : Outcome (Except Err (List ResourceRecordSet)) :=
  let result : List ResourceRecordSet := []
  match getRecordAliases env recordName zoneId with
  | .error err => .ret (.error err)
  | .ok recordSets => do
    let result ← filterLoop recordStream recordSets result
    return .ok result

/-- The three results of `LookupRecord`: the zone pointer, the record slice (`none` is
the nil slice, `some []` an empty non-nil one) and the error (`none` is nil). -/
abbrev LookupResult := Option HostedZone × Option (List ResourceRecordSet) × Option Err

/-- The body of `LookupRecord` for a hosted zone `hz` whose name is `hzName + "."`. -/
def lookupInZone (env : Env) (record : Str) (recordName : RecordName) (hz : HostedZone)
    (result : List ResourceRecordSet) : Outcome LookupResult := do
  let zoneId := hz.Id
  match ← getRecordsAliasesAndFilter env record zoneId recordName with
  | .error err => return (none, none, some err)
  | .ok filteredRecords =>
    if filteredRecords.length = 0 ∧ recordName.HasWildCard = false then
      match ← recordName.GetWithWildCard with
      | .error err => return (none, none, some err)
      | .ok recWithWc =>
        match ← getRecordsAliasesAndFilter env recWithWc zoneId recordName with
        | .error err => return (none, none, some err)
        | .ok filteredRecords => return (some hz, some (result ++ filteredRecords), none)
    else return (some hz, some (result ++ filteredRecords), none)

/-- The `for _, hz := range optionalHostedZones` loop of `LookupRecord`. -/
def lookupLoop (env : Env) (hzName record : Str) (recordName : RecordName)
    (result : List ResourceRecordSet) : List HostedZone → Outcome LookupResult
  | [] => .ret (none, none, some "LookupNotFoundErr")
  | hz :: optionalHostedZones =>
    if hz.Name = hzName ++ dot then lookupInZone env record recordName hz result
    else lookupLoop env hzName record recordName result optionalHostedZones

/-- Method `LookupRecord`. -/
def LookupRecord (env : Env) (hzName record : Str) (recordName : RecordName) :
    Outcome LookupResult :=
  let result : List ResourceRecordSet := []
  match env.ListHostedZonesByName hzName with
  | .error err => .ret (none, none, some err)
  | .ok optionalHostedZones =>
    if optionalHostedZones.length = 0 then .ret (none, none, none)
    else lookupLoop env hzName record recordName result optionalHostedZones

/-- The `for _, hzName := range optionalHostedZone` loop of `GetRecordSetAliases` with
the final `return nil, errors.New("NoRecordMatchFound")`. -/
def searchLoop (env : Env) (skipNSVerification : Bool) (recordName : Str)
    (recordStream : RecordName) :
    List Str → Route53Manager → Outcome (Except Err GetRecordAliasesResult × Route53Manager)
  | [], r53m => .ret (.error "NoRecordMatchFound", r53m)
  | hzName :: optionalHostedZone, r53m => do
    let (hosedZone, recordSets, err) ← LookupRecord env hzName recordName recordStream
    match err, recordSets with
    | none, some records =>
      let found : GetRecordAliasesResult :=
        { Region := env.Region, Records := records, HostedZone := hosedZone,
          Stream := recordStream }
      if skipNSVerification = false then do
        let ((isMatch, err), r53m) ← isNSMatchRecord env r53m hosedZone recordName
        if err ≠ none ∨ isMatch = false then
          searchLoop env skipNSVerification recordName recordStream optionalHostedZone r53m
        else return (.ok found, r53m)
      else return (.ok found, r53m)
    | _, _ =>
      -- `err != nil || recordSets == nil`: continue
      searchLoop env skipNSVerification recordName recordStream optionalHostedZone r53m

/-- Method `GetRecordSetAliases`; `panic(err)` is the `panic` outcome. -/
def GetRecordSetAliases (env : Env) (r53m : Route53Manager) (recordName : Str)
    (skipNSVerification : Bool) :
    Outcome (Except Err GetRecordAliasesResult × Route53Manager) := do
  match ← NewRecordName env recordName with
  | .error err => .panic err
  | .ok recordStream =>
    let recordName := recordStream.GetParsedURL
    match ← recordStream.GetAllOptionsForZoneName with
    | .error err => .panic err
    | .ok optionalHostedZone =>
      searchLoop env skipNSVerification recordName recordStream optionalHostedZone r53m

/-! ## A provider with one hosted zone -/

/-- The hosted zone `b.c.` of the example provider. -/
def zoneBC : HostedZone := { Id := "/hostedzone/Z1".toList, Name := "b.c.".toList }

/-- The only record set of the zone `b.c.`: an address record named `x.b.c.`. -/
def recordXBC : ResourceRecordSet := { Name := "x.b.c.".toList, Data := "A 192.0.2.1".toList }

/-- A provider account that holds the single hosted zone `b.c.` with the single record
set `x.b.c.`: listing zones by name from `b.c` or from `c` starts at that zone, from
any other name the list is empty.  `url.Parse("http://a.b.c")` has host `a.b.c`, no
other URL is asked for.  Nameserver calls fail. -/
def oneZoneEnv : Env where
  Hostname := fun s =>
    if s = "http://a.b.c".toList then .ok "a.b.c".toList else .error "url not in the example"
  ListHostedZonesByName := fun dnsName =>
    if dnsName = "b.c".toList ∨ dnsName = "c".toList then .ok [zoneBC] else .ok []
  ListResourceRecordSets := fun zoneId _ =>
    if zoneId = zoneBC.Id then .ok [recordXBC] else .error "NoSuchHostedZone"
  GetHostedZone := fun _ => .error "NoSuchHostedZone"
  LookupNS := fun _ => .error "no such host"
  Region := "us-east-1".toList

/-- A manager as `NewRoute53Api` makes it: the map `nameservers` is empty. -/
def newManager : Route53Manager := { nameservers := fun _ => none }

/-- The token `NewRecordName` builds for `"a.b.c"`. -/
def tokenABC : RecordName :=
  { rawURL := "a.b.c".toList, parsedURL := "a.b.c".toList,
    splittedURL := ["a".toList, "b".toList, "c".toList], hasWildCard := false }

/-! ## Go net/url: the host of a parsed URL -/

/-- Go `strings.HasSuffix(s, suffix)`. -/
def HasSuffix (s suf : Str) : Bool := suf.isSuffixOf s

/-- Go `strings.Cut(s, sep)` for a one-byte separator, without the `found` flag: the
text before the first `sep` (all of `s` when there is none) and the text behind it
(`""` when there is none). -/
def Cut (s : Str) (sep : Char) : Str × Str :=
  (s.takeWhile (fun c => decide (c ≠ sep)), (s.dropWhile (fun c => decide (c ≠ sep))).tail)

/-- The byte test `'a' <= c && c <= 'z' || 'A' <= c && c <= 'Z'` of `net/url`. -/
def isAlphaByte (c : Char) : Bool :=
  (decide (97 ≤ c.toNat) && decide (c.toNat ≤ 122)) || (decide (65 ≤ c.toNat) && decide (c.toNat ≤ 90))

/-- The byte test `'0' <= c && c <= '9'` of `net/url`. -/
def isDigitByte (c : Char) : Bool := decide (48 ≤ c.toNat) && decide (c.toNat ≤ 57)

/-- Go `ishex` of `net/url`. -/
def ishex (c : Char) : Bool :=
  isDigitByte c || (decide (97 ≤ c.toNat) && decide (c.toNat ≤ 102)) ||
    (decide (65 ≤ c.toNat) && decide (c.toNat ≤ 70))

/-- Go `stringContainsCTLByte`: some byte is below `' '` or is `0x7f`. -/
def stringContainsCTLByte (s : Str) : Bool :=
  s.any (fun c => decide (c.toNat < 32) || decide (c.toNat = 127))

/-- The loop of Go `getScheme`, at index `i` with the bytes from `i` on. -/
def getSchemeLoop (rawURL : Str) : Nat → Str → Except Err (Str × Str)
  | _, [] => .ok ([], rawURL)
  | i, c :: cs =>
    if isAlphaByte c = true then getSchemeLoop rawURL (i + 1) cs
    else if isDigitByte c = true ∨ c = '+' ∨ c = '-' ∨ c = '.' then
      if i = 0 then .ok ([], rawURL) else getSchemeLoop rawURL (i + 1) cs
    else if c = ':' then
      if i = 0 then .error "missing protocol scheme"
      else .ok (rawURL.take i, rawURL.drop (i + 1))
    else .ok ([], rawURL)

/-- Go `getScheme`: the scheme and the rest behind its `":"`, or no scheme and the
whole text. -/
def getScheme (rawURL : Str) : Except Err (Str × Str) := getSchemeLoop rawURL 0 rawURL

/-- The first loop of Go `unescape` in the path and fragment modes: every `"%"` must be
followed by two hex digits. -/
def validEscapes : Str → Bool
  | [] => true
  | c :: cs =>
    if c = '%' then
      match cs with
      | a :: b :: rest => ishex a && ishex b && validEscapes rest
      | _ => false
    else validEscapes cs

/-- A byte of a plain host name: a letter, a digit, `-`, `*` or `.`. -/
def hostChar (c : Char) : Bool :=
  isAlphaByte c || isDigitByte c || decide (c = '-') || decide (c = '*') || decide (c = '.')

/-- Go `parseAuthority` followed by `URL.Hostname` for an authority that is a plain
host name, that is, made of letters, digits, `-`, `*` and `.` (or empty): the
authority itself.  Every other authority (user info, port, IP literal, percent escape,
any other byte) is left out of the model (`none`). -/
def authorityHostname (authority : Str) : Option (Except Err Str) :=
  if authority.all hostChar = true then some (.ok authority) else none

/-- The query cut of Go `parse`: a lone `"?"` at the very end is dropped (`ForceQuery`),
otherwise the text from the first `"?"` on is the query; the value is what is left in
front. -/
def cutQuery (rest : Str) : Str :=
  if HasSuffix rest ['?'] = true ∧ rest.count '?' = 1 then rest.dropLast
  else (Cut rest '?').1

/-- Go `parse` behind the query cut, reduced to the host and the error: a rootless
rest is opaque (with a scheme) or must not hold `":"` in its first segment; a rest
that starts with `"//"` holds the authority up to the next `"/"`; the path must
unescape.  The value is `none` for an authority that `authorityHostname` leaves out. -/
def parseRest (scheme rest : Str) : Option (Except Err Str) :=
  if HasPrefix rest ['/'] = false ∧ scheme ≠ [] then some (.ok [])
  else if HasPrefix rest ['/'] = false ∧ ':' ∈ (Cut rest '/').1 then
    some (.error "first path segment in URL cannot contain colon")
  else if (scheme ≠ [] ∨ HasPrefix rest ['/', '/', '/'] = false)
      ∧ HasPrefix rest ['/', '/'] = true then
    let authority := rest.drop 2
    let rest := authority.dropWhile (fun c => decide (c ≠ '/'))
    let authority := authority.takeWhile (fun c => decide (c ≠ '/'))
    match authorityHostname authority with
    | none => none
    | some (.error err) => some (.error err)
    | some (.ok host) =>
      if validEscapes rest = true then some (.ok host)
      else some (.error "invalid URL escape")
  else if validEscapes rest = true then some (.ok [])
  else some (.error "invalid URL escape")

/-- Go `parse(rawURL, false)` of `net/url`, reduced to what decides the host and the
error: the `Hostname()` of the URL it returns, or its error; `none` for an authority
that `authorityHostname` leaves out. -/
def parseHostname (rawURL : Str) : Option (Except Err Str) :=
  if stringContainsCTLByte rawURL = true then
    some (.error "net/url: invalid control character in URL")
  else if rawURL = ['*'] then some (.ok [])
  else
    match getScheme rawURL with
    | .error err => some (.error err)
    | .ok (scheme, rest) => parseRest scheme (cutQuery rest)

/-- Go `url.Parse(rawURL)` followed by `Hostname()`: the fragment is cut off at the
first `"#"`, the rest goes through `parse`, and a non-empty fragment must unescape. -/
def ParseHostname (rawURL : Str) : Option (Except Err Str) :=
  let u := (Cut rawURL '#').1
  let frag := (Cut rawURL '#').2
  match parseHostname u with
  | none => none
  | some (.error err) => some (.error err)
  | some (.ok host) =>
    if frag = [] then some (.ok host)
    else if validEscapes frag = true then some (.ok host)
    else some (.error "invalid URL escape")

/-- An environment whose `Hostname` is `net/url` on the URLs `StripRecord` hands to it
(they start with `http://` or `https://`), wherever the model describes them: the same
host where the model has a host, and an error where the model has one (the text of the
error is left open). -/
def Env.AgreesWithNetURL (env : Env) : Prop :=
  ∀ s, (HasPrefix s "http://".toList = true ∨ HasPrefix s "https://".toList = true) →
    (∀ host, ParseHostname s = some (.ok host) → env.Hostname s = .ok host) ∧
    (∀ err, ParseHostname s = some (.error err) → ∃ err', env.Hostname s = .error err')

/-- Whether `url.Parse` accepts a URL made of `http://` or `https://`, a plain host,
`"/"` and the text `t`: `t` holds no control character in front of its first `"#"`, no
malformed percent escape in front of its first `"?"` or `"#"` (the path) and none
behind its first `"#"` (the fragment). -/
def acceptedTail (t : Str) : Bool :=
  !stringContainsCTLByte (Cut t '#').1 && validEscapes (Cut (Cut t '#').1 '?').1 &&
    validEscapes (Cut t '#').2

/-- The modelled part of `net/url` as a total function: an error marker stands for the
authorities left out. -/
def netURLHostname (s : Str) : Except Err Str :=
  (ParseHostname s).getD (.error "authority form outside the model")

/-! ## More providers -/

/-- The example provider with `net/url` for the host extraction. -/
def netURLEnv : Env := { oneZoneEnv with Hostname := netURLHostname }

/-- A provider like `netURLEnv` that refuses every listing of hosted zones. -/
def deniedEnv : Env :=
  { netURLEnv with ListHostedZonesByName := fun _ => .error "AccessDenied" }

/-- A provider like `netURLEnv` that fails every listing of record sets. -/
def throttledEnv : Env :=
  { netURLEnv with ListResourceRecordSets := fun _ _ => .error "Throttling" }

/-- The record set `*.b.c.`. -/
def recordStarBC : ResourceRecordSet :=
  { Name := "*.b.c.".toList, Data := "A 192.0.2.7".toList }

/-- A provider account with the hosted zone `b.c.` (id `Z1`) that holds the record set
`*.b.c.` and whose delegation set names the server `ns-1.example.com.` twice, and with
a hosted zone of id `test-zone`; the resolver knows the name servers of `a.b.c.`
only, a single one, `ns-2.example.org.`. -/
def delegatedEnv : Env where
  Hostname := netURLHostname
  ListHostedZonesByName := fun dnsName =>
    if dnsName = "b.c".toList ∨ dnsName = "c".toList then .ok [zoneBC] else .ok []
  ListResourceRecordSets := fun zoneId _ =>
    if zoneId = zoneBC.Id then .ok [recordStarBC] else .error "NoSuchHostedZone"
  GetHostedZone := fun id =>
    if id = "Z1".toList then .ok (some ["ns-1.example.com.".toList, "ns-1.example.com.".toList])
    else if id = "test-zone".toList then .ok (some ["ns-3.example.net.".toList])
    else .error "NoSuchHostedZone"
  LookupNS := fun name =>
    if name = "a.b.c.".toList then .ok ["ns-2.example.org.".toList] else .error "no such host"
  Region := "us-east-1".toList

/-- The provider `delegatedEnv` at a later time, when the resolver fails. -/
def delegatedEnvLater : Env := { delegatedEnv with LookupNS := fun _ => .error "no such host" }

/-- The token `NewRecordName` builds for `"*"`. -/
def tokenStar : RecordName :=
  { rawURL := "*".toList, parsedURL := "*".toList, splittedURL := ["*".toList],
    hasWildCard := true }

/-- A provider account with the hosted zone `b.c.` whose listing of record sets from
`*.b.c` holds the record set `*.b.c.` and from any other name the record set `x.b.c.`
only. -/
def retryEnv : Env :=
  { delegatedEnv with
    ListResourceRecordSets := fun zoneId startName =>
      if zoneId = zoneBC.Id then
        (if startName = "*.b.c".toList then .ok [recordStarBC] else .ok [recordXBC])
      else .error "NoSuchHostedZone" }

/-! ## Non-matching candidates -/

/-- The provider's answer for the candidate `c` holds no hosted zone named `c + "."`
(the answer may be an error). -/
def NoExactZone (env : Env) (c : Str) : Prop :=
  ∀ zones, env.ListHostedZonesByName c = .ok zones → ∀ hz ∈ zones, hz.Name ≠ c ++ dot

/-- The record sets of a listing whose name the token matches. -/
def matchingRecords (recordStream : RecordName) (listed : List ResourceRecordSet) :
    List ResourceRecordSet :=
  listed.filter (fun rs => decide (recordStream.IsEqual rs.Name = .ret true))

/-- No matching record is obtained from the zone `hz`: a listing of its record sets
fails, either the first one, from the token's name, or, after a first listing without
a matching record for a token that is not a wildcard, the retry from the wildcard form.
(A zone whose listings succeed is not of this kind, whatever they hold.) -/
def NoRecordsObtained (env : Env) (recordStream : RecordName) (hz : HostedZone)
    (recordName : Str) : Prop :=
  (∃ err, env.ListResourceRecordSets hz.Id recordName = .error err) ∨
  (∃ listed w err, env.ListResourceRecordSets hz.Id recordName = .ok listed ∧
    matchingRecords recordStream listed = [] ∧ recordStream.hasWildCard = false ∧
    recordStream.GetWithWildCard = .ret (.ok w) ∧
    env.ListResourceRecordSets hz.Id w = .error err)

/-- The record sets found for the token in the zone `hz`: the matching ones of the
listing from the token's name or, when there is none and the token is not a wildcard,
the matching ones of the listing from the wildcard form; both listings succeed where
they are read.  The list found may be empty. -/
def FoundRecords (env : Env) (recordStream : RecordName) (hz : HostedZone)
    (recordName : Str) (records : List ResourceRecordSet) : Prop :=
  ∃ listed, env.ListResourceRecordSets hz.Id recordName = .ok listed ∧
    (((matchingRecords recordStream listed ≠ [] ∨ recordStream.hasWildCard = true) ∧
        records = matchingRecords recordStream listed) ∨
      (matchingRecords recordStream listed = [] ∧ recordStream.hasWildCard = false ∧
        ∃ w retried, recordStream.GetWithWildCard = .ret (.ok w) ∧
          env.ListResourceRecordSets hz.Id w = .ok retried ∧
          records = matchingRecords recordStream retried))

/-- The candidate `c` is a non-match for the token when the search reaches it with the
manager `r53m`: the provider's answer holds no hosted zone of that exact name; or no
matching record is obtained from the first zone of that name; or, with verification,
the zone and its records are found and the nameserver verification of the zone fails.
The manager behind the candidate is `after`. -/
def NonMatch (env : Env) (skipNSVerification : Bool) (recordName : Str)
    (recordStream : RecordName) (c : Str) (r53m after : Route53Manager) : Prop :=
  (NoExactZone env c ∧ after = r53m) ∨
  (∃ zones hz, env.ListHostedZonesByName c = .ok zones ∧
    zones.find? (fun z => decide (z.Name = c ++ dot)) = some hz ∧
    NoRecordsObtained env recordStream hz recordName ∧ after = r53m) ∨
  (skipNSVerification = false ∧ ∃ zones hz records isMatch err,
    env.ListHostedZonesByName c = .ok zones ∧
    zones.find? (fun z => decide (z.Name = c ++ dot)) = some hz ∧
    FoundRecords env recordStream hz recordName records ∧
    isNSMatchRecord env r53m (some hz) recordName = .ret ((isMatch, err), after) ∧
    (err ≠ none ∨ isMatch = false))

/-- The candidate `c` is the successful one and `res` is what the search returns for
it, reached with the manager `r53m`: the provider's answer for `c` holds a zone named
`c + "."`, the first such zone is returned with the record sets found in it, the
session's region and the token; with verification, the nameserver verification of the
zone has passed.  The manager behind the candidate is `after`. -/
def IsMatch (env : Env) (skipNSVerification : Bool) (recordName : Str)
    (recordStream : RecordName) (c : Str) (r53m after : Route53Manager)
    (res : GetRecordAliasesResult) : Prop :=
  ∃ zones hz records, env.ListHostedZonesByName c = .ok zones ∧
    zones.find? (fun z => decide (z.Name = c ++ dot)) = some hz ∧
    FoundRecords env recordStream hz recordName records ∧
    res = { Region := env.Region, Records := records, HostedZone := some hz,
            Stream := recordStream } ∧
    ((skipNSVerification = true ∧ after = r53m) ∨
      (skipNSVerification = false ∧
        isNSMatchRecord env r53m (some hz) recordName = .ret ((true, none), after)))

/-- Every candidate of the list is a non-match, the manager going from `r53m` to
`after` along the list. -/
inductive AllNonMatch (env : Env) (skipNSVerification : Bool) (recordName : Str)
    (recordStream : RecordName) : List Str → Route53Manager → Route53Manager → Prop where
  | nil (r53m : Route53Manager) :
      AllNonMatch env skipNSVerification recordName recordStream [] r53m r53m
  | cons (c : Str) (cs : List Str) (r53m mid after : Route53Manager) :
      NonMatch env skipNSVerification recordName recordStream c r53m mid →
      AllNonMatch env skipNSVerification recordName recordStream cs mid after →
      AllNonMatch env skipNSVerification recordName recordStream (c :: cs) r53m after

/-! ## Auxiliary facts -/

@[simp] theorem Outcome.ret_bind {α β : Type} (a : α) (f : α → Outcome β) :
    (Outcome.ret a >>= f) = f a := rfl

@[simp] theorem Outcome.panic_bind {α β : Type} (m : String) (f : α → Outcome β) :
    (Outcome.panic m >>= f) = Outcome.panic m := rfl

@[simp] theorem Outcome.pure_eq {α : Type} (a : α) : (pure a : Outcome α) = Outcome.ret a := rfl

@[simp] theorem index_cons_zero {α : Type} (a : α) (l : List α) :
    index (a :: l) 0 = .ret a := by
  simp [index]

@[simp] theorem index_cons_succ {α : Type} (a : α) (l : List α) (i : Nat) :
    index (a :: l) (i + 1) = index l i := by
  simp [index]

theorem slice_to_end {α : Type} (xs : List α) (lo : Nat) (h : lo ≤ xs.length) :
    slice xs lo xs.length = .ret (xs.drop lo) := by
  simp [slice, h]

@[simp] theorem Join_singleton (a sep : Str) : Join [a] sep = a := rfl

theorem Join_cons_cons (a b : Str) (rest : List Str) (sep : Str) :
    Join (a :: b :: rest) sep = a ++ sep ++ Join (b :: rest) sep := rfl

/-- The loop of `GetAllOptionsForZoneName` appends, for every index it does not skip,
the labels from that index on joined by `"."`. -/
theorem RecordName.optionsLoop_eq (r : RecordName) (idxs : List Nat) :
    ∀ opts : List Str, (∀ i ∈ idxs, i ≤ r.splittedURL.length) →
      optionsLoop r r.splittedURL.length idxs opts =
        .ret (opts ++ (idxs.filter (fun i => !(decide (i = 0) && r.hasWildCard))).map
          (fun i => Join (r.splittedURL.drop i) dot)) := by
  induction idxs with
  | nil => intro opts _; simp [optionsLoop]
  | cons idx idxs ih =>
    intro opts h
    have hidx : idx ≤ r.splittedURL.length := h idx (List.mem_cons_self _ _)
    have hrest : ∀ i ∈ idxs, i ≤ r.splittedURL.length :=
      fun i hi => h i (List.mem_cons_of_mem _ hi)
    by_cases hskip : idx = 0 ∧ r.hasWildCard = true
    · rw [optionsLoop, if_pos hskip, ih opts hrest]
      simp [List.filter_cons, hskip.1, hskip.2]
    · rw [optionsLoop, if_neg hskip, slice_to_end _ _ hidx]
      simp only [Outcome.ret_bind]
      rw [ih _ hrest]
      have hkeep : (fun i => !(decide (i = 0) && r.hasWildCard)) idx = true := by
        by_cases h0 : idx = 0
        · simp [h0] at hskip ⊢; exact hskip
        · simp [h0]
      rw [List.filter_cons_of_pos (p := fun i => !(decide (i = 0) && r.hasWildCard)) hkeep]
      simp

/-- Indices kept by the loop: all of `0 .. n-1`, or `1 .. n-1` for a wildcard. -/
theorem range_filter_skip (n : Nat) (w : Bool) :
    (List.range n).filter (fun i => !(decide (i = 0) && w)) =
      List.range' (if w = true then 1 else 0) (n - (if w = true then 1 else 0)) := by
  cases w with
  | false => simp [List.range_eq_range']
  | true =>
    cases n with
    | zero => simp
    | succ n =>
      rw [List.range_eq_range', List.range'_succ]
      simp only [List.filter_cons]
      simp
      intro a h1 _
      omega

/-! ## Constructed record names -/

/-- No piece of a split string contains the separator. -/
theorem Split_no_sep (s : Str) (sep : Char) : ∀ piece ∈ Split s sep, sep ∉ piece := by
  induction s with
  | nil => simp [Split]
  | cons x xs ih =>
    by_cases hx : x = sep
    · simp only [Split, if_pos hx, List.mem_cons]
      rintro piece (h | h)
      · subst h; simp
      · exact ih piece h
    · simp only [Split, if_neg hx]
      cases hsplit : Split xs sep with
      | nil => simp [hx]; exact fun h => hx h.symm
      | cons p ps =>
        rw [hsplit] at ih
        simp only [List.mem_cons]
        rintro piece (h | h)
        · subst h
          simp only [List.mem_cons, not_or]
          exact ⟨fun h => hx h.symm, ih p (List.mem_cons_self _ _)⟩
        · exact ih piece (List.mem_cons_of_mem _ h)

/-- Every `RecordName` that `NewRecordName` returns is well formed, its labels contain
no `"."`, and its `rawURL` is the input. -/
theorem NewRecordName_wellFormed (env : Env) (rawQuery : Str) (r : RecordName)
    (h : NewRecordName env rawQuery = .ret (.ok r)) :
    r.WellFormed ∧ (∀ label ∈ r.splittedURL, '.' ∉ label) ∧ r.rawURL = rawQuery := by
  unfold NewRecordName at h
  cases hs : StripRecord env rawQuery with
  | error err => rw [hs] at h; cases h
  | ok splitted =>
    rw [hs] at h
    simp only at h
    have hdots : ∀ label ∈ splitted, '.' ∉ label := by
      unfold StripRecord at hs
      simp only at hs
      split at hs
      · cases hs
      · cases hs
        exact Split_no_sep _ _
    cases h1 : index splitted (splitted.length - 1) with
    | panic m => rw [h1] at h; cases h
    | ret last =>
      rw [h1] at h
      simp only [Outcome.ret_bind] at h
      have hfinish : ∀ labels : List Str, (∀ label ∈ labels, label ∈ splitted) →
          (index labels 0 >>= fun first => (pure (Except.ok
            { rawURL := rawQuery, parsedURL := Join labels dot, splittedURL := labels,
              hasWildCard := decide (first = WildCard) }) : Outcome (Except Err RecordName)))
            = Outcome.ret (Except.ok r) →
          r.WellFormed ∧ (∀ label ∈ r.splittedURL, '.' ∉ label) ∧ r.rawURL = rawQuery := by
        intro labels hsub hret
        cases labels with
        | nil => simp [index] at hret
        | cons first rest =>
          simp only [index_cons_zero, Outcome.ret_bind, Outcome.pure_eq] at hret
          cases hret
          exact ⟨⟨by simp, rfl, by simp⟩, fun label hl => hdots label (hsub label hl), rfl⟩
      split at h
      · cases h2 : slice splitted 0 (splitted.length - 1) with
        | panic m => rw [h2] at h; cases h
        | ret labels =>
          rw [h2] at h
          simp only [Outcome.ret_bind] at h
          refine hfinish labels ?_ h
          unfold slice at h2
          split at h2
          · cases h2
            intro label hl
            simp only [List.drop_zero] at hl
            exact List.mem_of_mem_take hl
          · cases h2
      · simp only [Outcome.pure_eq, Outcome.ret_bind] at h
        exact hfinish splitted (fun _ hl => hl) h

/-! ## Candidate zone names -/

/-- The list `GetAllOptionsForZoneName` returns for a well-formed record name other
than the single label `"*"`: the suffixes of the label list from index `0` (`1` for a
wildcard) to the last, each joined by `"."`. -/
theorem RecordName.options_eq (r : RecordName) (hN : r.splittedURL ≠ [])
    (hp : r.parsedURL = Join r.splittedURL dot)
    (hw : r.hasWildCard = true ↔ r.splittedURL.head? = some WildCard)
    (hne : r.splittedURL ≠ [WildCard]) :
    r.GetAllOptionsForZoneName =
        .ret (.ok ((List.range' (if r.hasWildCard = true then 1 else 0)
          (r.splittedURL.length - (if r.hasWildCard = true then 1 else 0))).map
            (fun i => Join (r.splittedURL.drop i) dot))) := by
  obtain ⟨raw, parsed, labels, wc⟩ := r
  simp only at hN hp hw hne ⊢
  subst hp
  match labels, hN, hw, hne with
  | [a], _, hw, hne =>
    have hwc : wc = false := by
      cases wc with
      | false => rfl
      | true =>
        have := hw.mp rfl
        simp at this
        exact absurd (by rw [this]) hne
    subst hwc
    simp [RecordName.GetAllOptionsForZoneName, List.range']
  | [a, b], _, _, _ =>
    cases wc <;> simp [RecordName.GetAllOptionsForZoneName, List.range', Join]
  | [a, b, c], _, _, _ =>
    cases wc <;> simp [RecordName.GetAllOptionsForZoneName, List.range', Join, slice]
  | a :: b :: c :: d :: rest, _, _, _ =>
    have hloop := RecordName.optionsLoop_eq ⟨raw, Join (a :: b :: c :: d :: rest) dot,
      a :: b :: c :: d :: rest, wc⟩ (List.range (a :: b :: c :: d :: rest).length) []
      (fun i hi => Nat.le_of_lt (List.mem_range.mp hi))
    simp only [List.nil_append] at hloop
    rw [range_filter_skip] at hloop
    simp only [RecordName.GetAllOptionsForZoneName]
    rw [if_neg (by simp), if_neg (by simp), if_neg (by simp), if_neg (by simp),
      if_neg (by simp), if_neg (by simp), hloop]
    rfl

/-- C1: for a `RecordName` built with labels `L` of length `N ≥ 1` (`parsedURL` the
labels joined by `"."`, `hasWildCard` iff the first label is `"*"`) that is not the
single label `"*"`, `GetAllOptionsForZoneName` returns without error exactly
`[join(L[i:], ".") for i = s, ..., N-1]` in that order, `s = 1` for a wildcard and
`s = 0` otherwise; the list has `N - s` entries. -/
theorem GetAllOptionsForZoneName_suffixes (r : RecordName) (L : List Str)
    (hL : r.splittedURL = L) (hN : 1 ≤ L.length) (hp : r.parsedURL = Join L dot)
    (hw : r.hasWildCard = true ↔ L.head? = some WildCard) (hne : L ≠ [WildCard]) :
    r.GetAllOptionsForZoneName =
        .ret (.ok ((List.range' (if r.hasWildCard = true then 1 else 0)
          (L.length - (if r.hasWildCard = true then 1 else 0))).map
            (fun i => Join (L.drop i) dot)))
      ∧ ((List.range' (if r.hasWildCard = true then 1 else 0)
          (L.length - (if r.hasWildCard = true then 1 else 0))).map
            (fun i => Join (L.drop i) dot)).length
          = L.length - (if r.hasWildCard = true then 1 else 0) := by
  subst hL
  have hN' : r.splittedURL ≠ [] := by
    intro h
    rw [h] at hN
    simp at hN
  exact ⟨RecordName.options_eq r hN' hp hw hne, by simp⟩

/-- C1, the two scenarios: `"a.b.c.d.e"` gives `["a.b.c.d.e","b.c.d.e","c.d.e","d.e","e"]`
and `"*.a.b"` gives `["a.b","b"]`. -/
theorem GetAllOptionsForZoneName_suffixes_witness :
    (RecordName.mk "a.b.c.d.e".toList "a.b.c.d.e".toList
        ["a".toList, "b".toList, "c".toList, "d".toList, "e".toList] false).GetAllOptionsForZoneName
      = .ret (.ok ["a.b.c.d.e".toList, "b.c.d.e".toList, "c.d.e".toList, "d.e".toList,
          "e".toList])
    ∧ (RecordName.mk "*.a.b".toList "*.a.b".toList
        ["*".toList, "a".toList, "b".toList] true).GetAllOptionsForZoneName
      = .ret (.ok ["a.b".toList, "b".toList]) :=
  ⟨(GetAllOptionsForZoneName_suffixes
      (RecordName.mk "a.b.c.d.e".toList "a.b.c.d.e".toList
        ["a".toList, "b".toList, "c".toList, "d".toList, "e".toList] false)
      ["a".toList, "b".toList, "c".toList, "d".toList, "e".toList]
      rfl (by decide) (by decide) (by decide) (by decide)).1,
   (GetAllOptionsForZoneName_suffixes
      (RecordName.mk "*.a.b".toList "*.a.b".toList ["*".toList, "a".toList, "b".toList] true)
      ["*".toList, "a".toList, "b".toList]
      rfl (by decide) (by decide) (by decide) (by decide)).1⟩

theorem Split_length (s : Str) (sep : Char) : (Split s sep).length = s.count sep + 1 := by
  induction s with
  | nil => simp [Split]
  | cons x xs ih =>
    by_cases hx : x = sep
    · simp [Split, hx, ih]
    · have hcount : (x :: xs).count sep = xs.count sep := by
        simp [List.count_cons, hx]
      rw [hcount, ← ih]
      simp only [Split, if_neg hx]
      cases hsplit : Split xs sep with
      | nil => rw [hsplit] at ih; simp at ih
      | cons piece pieces => simp

theorem labelCount_eq (s : Str) : labelCount s = s.count '.' + 1 := Split_length s '.'

/-- One more label in front gives a strictly larger label count. -/
theorem labelCount_Join_cons (x : Str) (M : List Str) (hM : M ≠ []) :
    labelCount (Join M dot) < labelCount (Join (x :: M) dot) := by
  cases M with
  | nil => exact absurd rfl hM
  | cons y rest =>
    rw [Join_cons_cons, labelCount_eq, labelCount_eq]
    simp [dot, List.count_append]
    omega

/-- A relation that holds between consecutive numbers chains on an interval. -/
theorem chain'_range'_of_step (R : Nat → Nat → Prop) :
    ∀ (n s : Nat), (∀ i, s ≤ i → i + 1 < s + n → R i (i + 1)) →
      List.Chain' R (List.range' s n) := by
  intro n
  induction n with
  | zero => intro s _; simp
  | succ n ih =>
    intro s h
    rw [List.range'_succ, List.chain'_cons']
    refine ⟨?_, ih (s + 1) (fun i hi hlt => h i (by omega) (by omega))⟩
    intro y hy
    cases n with
    | zero => simp at hy
    | succ n =>
      rw [List.range'_succ] at hy
      simp at hy
      subst hy
      exact h s (Nat.le_refl s) (by omega)

/-- C2: for a `RecordName` with a non-empty label list that is not the single label
`"*"`, the list returned by `GetAllOptionsForZoneName` is non-empty, the number of
dot-separated labels of its entries strictly decreases from each entry to the next,
and its last entry is the last label alone. -/
theorem GetAllOptionsForZoneName_decreasing (r : RecordName) (hwf : r.WellFormed)
    (hne : r.splittedURL ≠ [WildCard]) :
    ∃ opts : List Str, r.GetAllOptionsForZoneName = .ret (.ok opts) ∧ opts ≠ [] ∧
      List.Chain' (fun a b => labelCount a > labelCount b) opts ∧
      opts.getLast? = r.splittedURL.getLast? := by
  obtain ⟨hN, hp, hw⟩ := hwf
  have hs : (if r.hasWildCard = true then 1 else 0) < r.splittedURL.length := by
    cases hL : r.splittedURL with
    | nil => exact absurd hL hN
    | cons a rest =>
      cases rest with
      | nil =>
        have hwc : r.hasWildCard ≠ true := by
          intro hwc
          have := hw.mp hwc
          rw [hL] at this
          simp at this
          exact hne (by rw [hL, this])
        simp [hwc]
      | cons b rest => split <;> simp
  refine ⟨_, RecordName.options_eq r hN hp hw hne, ?_, ?_, ?_⟩
  · simp
    omega
  · rw [List.chain'_map]
    apply chain'_range'_of_step
    intro i _ hlt
    have hi : i < r.splittedURL.length := by omega
    rw [List.drop_eq_getElem_cons hi]
    apply labelCount_Join_cons
    intro hnil
    have := congrArg List.length hnil
    simp at this
    omega
  · rw [List.getLast?_map, List.getLast?_range', if_neg (by omega)]
    have hidx : (if r.hasWildCard = true then 1 else 0) +
        (r.splittedURL.length - (if r.hasWildCard = true then 1 else 0)) - 1
          = r.splittedURL.length - 1 := by omega
    rw [hidx]
    simp only [Option.map_some']
    have hlen : 0 < r.splittedURL.length := List.length_pos.mpr hN
    obtain ⟨a, ha⟩ : ∃ a, r.splittedURL.drop (r.splittedURL.length - 1) = [a] := by
      apply List.length_eq_one.mp
      simp
      omega
    have hlast := List.getLast?_drop (n := r.splittedURL.length - 1) (l := r.splittedURL)
    rw [ha, if_neg (by omega)] at hlast
    rw [ha, Join_singleton, ← hlast]
    rfl

/-- C2 at `"*.www.example.com"`: the candidates are `"www.example.com"`,
`"example.com"`, `"com"`. -/
theorem GetAllOptionsForZoneName_decreasing_witness :
    ∃ opts : List Str,
      (RecordName.mk "*.www.example.com".toList "*.www.example.com".toList
        ["*".toList, "www".toList, "example".toList, "com".toList] true).GetAllOptionsForZoneName
          = .ret (.ok opts) ∧ opts ≠ [] ∧
      List.Chain' (fun a b => labelCount a > labelCount b) opts ∧
      opts.getLast? = some "com".toList :=
  GetAllOptionsForZoneName_decreasing
    (RecordName.mk "*.www.example.com".toList "*.www.example.com".toList
      ["*".toList, "www".toList, "example".toList, "com".toList] true)
    (by decide) (by decide)

/-- C3: for a `RecordName` with a non-empty label list, `GetAllOptionsForZoneName`
returns an error if and only if the token has exactly one label and that label is the
wildcard `"*"`; in every other case it returns a list. -/
theorem GetAllOptionsForZoneName_error_iff (r : RecordName) (hwf : r.WellFormed) :
    ((∃ err, r.GetAllOptionsForZoneName = .ret (.error err)) ↔ r.splittedURL = [WildCard])
      ∧ (r.splittedURL ≠ [WildCard] → ∃ opts, r.GetAllOptionsForZoneName = .ret (.ok opts)) := by
  obtain ⟨hN, hp, hw⟩ := hwf
  have hok : r.splittedURL ≠ [WildCard] →
      ∃ opts, r.GetAllOptionsForZoneName = .ret (.ok opts) :=
    fun hne => ⟨_, RecordName.options_eq r hN hp hw hne⟩
  refine ⟨⟨?_, ?_⟩, hok⟩
  · rintro ⟨err, herr⟩
    by_contra hne
    obtain ⟨opts, hopts⟩ := hok hne
    rw [hopts] at herr
    cases herr
  · intro hL
    have hwc : r.hasWildCard = true := hw.mpr (by rw [hL]; rfl)
    exact ⟨"InvalidRecordWildCard", by simp [RecordName.GetAllOptionsForZoneName, hL, hwc]⟩

/-- C3 at the inputs `"*"` (an error) and `"*.a"` (no error). -/
theorem GetAllOptionsForZoneName_error_iff_witness :
    (∃ err, (RecordName.mk "*".toList "*".toList ["*".toList] true).GetAllOptionsForZoneName
        = .ret (.error err))
    ∧ ¬ (∃ err, (RecordName.mk "*.a".toList "*.a".toList
          ["*".toList, "a".toList] true).GetAllOptionsForZoneName = .ret (.error err)) :=
  ⟨(GetAllOptionsForZoneName_error_iff
      (RecordName.mk "*".toList "*".toList ["*".toList] true) (by decide)).1.mpr rfl,
   fun h => absurd ((GetAllOptionsForZoneName_error_iff
      (RecordName.mk "*.a".toList "*.a".toList ["*".toList, "a".toList] true)
      (by decide)).1.mp h) (by decide)⟩

/-! ## Matching and wildcard substitution -/

/-- A joined name is its first label followed by what `Join` puts behind an empty
first label. -/
theorem Join_cons_eq (a : Str) (M : List Str) (sep : Str) :
    Join (a :: M) sep = a ++ Join ([] :: M) sep := by
  cases M with
  | nil => simp [Join]
  | cons b rest => simp [Join]

/-- What follows the first label of a joined name is empty or starts with `"."`. -/
theorem Join_nil_cons_shape (M : List Str) :
    Join ([] :: M) dot = [] ∨ ∃ t, Join ([] :: M) dot = '.' :: t := by
  cases M with
  | nil => exact Or.inl rfl
  | cons b rest => exact Or.inr ⟨Join (b :: rest) dot, rfl⟩

/-- Replacing the first occurrence of a prefix replaces that prefix. -/
theorem Replace1_prefix (old rest new : Str) :
    Replace1 (old ++ rest) old new = new ++ rest := by
  unfold Replace1
  by_cases h : old = new
  · simp [h]
  · rw [if_neg h]
    cases hs : old ++ rest with
    | nil =>
      have hold : old = [] := (List.append_eq_nil.mp hs).1
      have hrest : rest = [] := (List.append_eq_nil.mp hs).2
      simp [replaceFirstAux, hold, hrest]
    | cons c cs =>
      have hpre : old.isPrefixOf (c :: cs) = true := by
        rw [← hs]
        exact List.isPrefixOf_iff_prefix.mpr (List.prefix_append old rest)
      rw [replaceFirstAux, if_pos hpre, ← hs]
      simp

/-- The value `GetWithWildCard` returns for a record name whose `parsedURL` is its
non-empty label list joined by `"."`. -/
theorem RecordName.GetWithWildCard_eq (r : RecordName) (hN : r.splittedURL ≠ [])
    (hp : r.parsedURL = Join r.splittedURL dot) :
    r.GetWithWildCard = .ret (.ok (WildCard ++ Join ([] :: r.splittedURL.tail) dot)) := by
  cases hL : r.splittedURL with
  | nil => exact absurd hL hN
  | cons a M =>
    rw [hL, Join_cons_eq] at hp
    simp [RecordName.GetWithWildCard, hL, hp, Replace1_prefix]

/-- A non-wildcard token matches every name made of `"*"` and what follows its own
first label, with or without one more `"."`. -/
theorem RecordName.IsEqual_wildcard_form (r : RecordName) (hwf : r.WellFormed)
    (hwc : r.hasWildCard = false) :
    r.IsEqual (WildCard ++ Join ([] :: r.splittedURL.tail) dot) = .ret true ∧
      r.IsEqual (WildCard ++ Join ([] :: r.splittedURL.tail) dot ++ dot) = .ret true := by
  obtain ⟨hN, hp, _⟩ := hwf
  cases hL : r.splittedURL with
  | nil => exact absurd hL hN
  | cons a M =>
    rw [hL, Join_cons_eq] at hp
    have h1 : Replace1 (WildCard ++ Join ([] :: M) dot) WildCard a = a ++ Join ([] :: M) dot :=
      Replace1_prefix _ _ _
    have h2 : Replace1 (WildCard ++ (Join ([] :: M) dot ++ dot)) WildCard a
        = a ++ (Join ([] :: M) dot ++ dot) := Replace1_prefix _ _ _
    have hpre1 : HasPrefix (WildCard ++ Join ([] :: M) dot) WildCard = true := by
      simp [HasPrefix, WildCard]
    have hpre2 : HasPrefix (WildCard ++ (Join ([] :: M) dot ++ dot)) WildCard = true := by
      simp [HasPrefix, WildCard]
    constructor
    · unfold RecordName.IsEqual
      split
      · rfl
      · simp [hwc, hpre1, hL, h1, hp, List.tail_cons]
    · unfold RecordName.IsEqual
      split
      · rfl
      · simp [hwc, hpre2, hL, h2, hp, List.tail_cons]

theorem Split_ne_nil (s : Str) (sep : Char) : Split s sep ≠ [] := by
  intro h
  have := Split_length s sep
  rw [h] at this
  simp at this

/-- Joining the pieces of a split name by the separator gives the name back. -/
theorem Join_Split (s : Str) : Join (Split s '.') dot = s := by
  induction s with
  | nil => rfl
  | cons x xs ih =>
    cases hsplit : Split xs '.' with
    | nil => exact absurd hsplit (Split_ne_nil xs '.')
    | cons piece pieces =>
      rw [hsplit] at ih
      by_cases hx : x = '.'
      · subst hx
        simp only [Split, if_true, hsplit, Join_cons_cons, ih]
        rfl
      · simp only [Split, if_neg hx, hsplit]
        rw [Join_cons_eq] at ih ⊢
        rw [← ih]
        rfl

/-- A name is its first label followed by the rest of its pieces, and replacing the
first label keeps that rest. -/
theorem firstLabel_append_rest (c : Str) :
    c = firstLabel c ++ Join ([] :: (Split c '.').tail) dot ∧
      ∀ label, withFirstLabel c label = label ++ Join ([] :: (Split c '.').tail) dot := by
  constructor
  · have h := Join_Split c
    cases hsplit : Split c '.' with
    | nil => exact absurd hsplit (Split_ne_nil c '.')
    | cons piece pieces =>
      rw [hsplit, Join_cons_eq] at h
      simp only [firstLabel, hsplit, List.headD_cons, List.tail_cons]
      exact h.symm
  · intro label
    exact Join_cons_eq label _ dot

/-- The first label of a name that starts with a dot-free label followed by nothing
or by `"."` is that label. -/
theorem firstLabel_append (a T : Str) (ha : '.' ∉ a) (hT : T = [] ∨ ∃ t, T = '.' :: t) :
    firstLabel (a ++ T) = a := by
  induction a with
  | nil =>
    rcases hT with hT | ⟨t, hT⟩
    · subst hT; rfl
    · subst hT; simp [firstLabel, Split]
  | cons x xs ih =>
    have hx : x ≠ '.' := fun h => ha (by simp [h])
    have hxs : '.' ∉ xs := fun h => ha (List.mem_cons_of_mem _ h)
    have ih' := ih hxs
    unfold firstLabel at ih' ⊢
    cases hsplit : Split (xs ++ T) '.' with
    | nil => exact absurd hsplit (Split_ne_nil _ '.')
    | cons piece pieces =>
      rw [hsplit] at ih'
      simp only [List.headD_cons] at ih'
      simp [Split, hx, hsplit, ih']

/-- Relation between the source's test on a record-set name (`HasPrefix` and `Replace`
on the byte `"*"`) and the first dot-separated label of that name. -/
theorem star_prefix_iff_firstLabel (c a T : Str) (hT : T = [] ∨ ∃ t, T = '.' :: t) :
    (HasPrefix c WildCard = true ∧
        (Replace1 c WildCard a = a ++ T ++ dot ∨ Replace1 c WildCard a = a ++ T)) ↔
      (firstLabel c = WildCard ∧
        (withFirstLabel c a = a ++ T ∨ withFirstLabel c a = a ++ T ++ dot)) := by
  obtain ⟨hc, hsub⟩ := firstLabel_append_rest c
  constructor
  · rintro ⟨hpre, hrep⟩
    obtain ⟨rest, hrest⟩ : ∃ rest, c = WildCard ++ rest := by
      obtain ⟨rest, hrest⟩ := List.isPrefixOf_iff_prefix.mp hpre
      exact ⟨rest, hrest.symm⟩
    have hrep' : a ++ rest = a ++ T ++ dot ∨ a ++ rest = a ++ T := by
      rw [hrest, Replace1_prefix] at hrep
      exact hrep
    have hrest' : rest = T ++ dot ∨ rest = T := by
      rcases hrep' with h | h
      · rw [List.append_assoc] at h
        exact Or.inl (List.append_cancel_left h)
      · exact Or.inr (List.append_cancel_left h)
    have hshape : rest = [] ∨ ∃ t, rest = '.' :: t := by
      rcases hT with hT | ⟨t, hT⟩
      · rcases hrest' with h | h
        · exact Or.inr ⟨[], by rw [h, hT]; rfl⟩
        · exact Or.inl (by rw [h, hT])
      · rcases hrest' with h | h
        · exact Or.inr ⟨t ++ dot, by rw [h, hT]; rfl⟩
        · exact Or.inr ⟨t, by rw [h, hT]⟩
    have hfirst : firstLabel c = WildCard := by
      rw [hrest]
      exact firstLabel_append WildCard rest (by decide) hshape
    have hR : Join ([] :: (Split c '.').tail) dot = rest := by
      have h := hc
      rw [hfirst] at h
      rw [hrest] at h
      have h2 : WildCard ++ rest = WildCard ++ Join ([] :: (Split (WildCard ++ rest) '.').tail) dot := h
      rw [hrest]
      exact (List.append_cancel_left h2).symm
    refine ⟨hfirst, ?_⟩
    rw [hsub, hR]
    rcases hrest' with h | h
    · exact Or.inr (by rw [h, List.append_assoc])
    · exact Or.inl (by rw [h])
  · rintro ⟨hfirst, hsubst⟩
    rw [hfirst] at hc
    rw [hsub] at hsubst
    have hpre : HasPrefix c WildCard = true := by
      rw [hc]
      exact List.isPrefixOf_iff_prefix.mpr (List.prefix_append _ _)
    refine ⟨hpre, ?_⟩
    have hrep : Replace1 c WildCard a = a ++ Join ([] :: (Split c '.').tail) dot := by
      conv_lhs => rw [hc]
      exact Replace1_prefix _ _ _
    rw [hrep]
    exact hsubst.symm

/-- With a first label `a` to read, `IsEqual` does not panic and returns the value
of the source's two tests. -/
theorem RecordName.IsEqual_eq (t : RecordName) (a : Str) (M : List Str)
    (hL : t.splittedURL = a :: M) (c : Str) :
    t.IsEqual c = .ret (decide ((c = t.parsedURL ++ dot ∨ c = t.parsedURL) ∨
      (t.hasWildCard = false ∧ (HasPrefix c WildCard = true ∧
        (Replace1 c WildCard a = t.parsedURL ++ dot ∨ Replace1 c WildCard a = t.parsedURL))))) := by
  unfold RecordName.IsEqual
  by_cases h1 : c = t.parsedURL ++ dot ∨ c = t.parsedURL
  · simp [h1]
  · rw [if_neg h1]
    by_cases h2 : t.hasWildCard = false ∧ HasPrefix c WildCard = true
    · rw [if_pos h2, hL]
      by_cases h3 : Replace1 c WildCard a = t.parsedURL ++ dot ∨ Replace1 c WildCard a = t.parsedURL
      · simp [h2.1, h2.2, h3]
      · simp [h1, h2.1, h2.2, h3]
    · rw [if_neg h2]
      have : ¬ (t.hasWildCard = false ∧ (HasPrefix c WildCard = true ∧
          (Replace1 c WildCard a = t.parsedURL ++ dot ∨ Replace1 c WildCard a = t.parsedURL))) :=
        fun h => h2 ⟨h.1, h.2.1⟩
      simp [h1, this]

/-- C4: for a `RecordName` `t` with non-empty labels and normalized name `n`, and every
string `c`: `t.IsEqual(c)` returns, and it is true if and only if `c = n`, or
`c = n + "."`, or `t` is not a wildcard, the first label of `c` is `"*"` and `c` with
that label replaced by the first label of `t` equals `n` or `n + "."`.  In particular
a non-wildcard token does not match a string that does not start with `"*"` and
differs from `n` and `n + "."`, does not match a wildcard record whose substituted
form differs from `n` and `n + "."` (first label of `t` free of `"."`), and a wildcard
token matches only `n` and `n + "."`. -/
theorem IsEqual_iff (t : RecordName) (hwf : t.WellFormed) (c : Str) :
    (∃ b, t.IsEqual c = .ret b) ∧
    (t.IsEqual c = .ret true ↔
      (c = t.parsedURL ∨ c = t.parsedURL ++ dot ∨
        (t.hasWildCard = false ∧ firstLabel c = WildCard ∧
          (withFirstLabel c (t.splittedURL.headD []) = t.parsedURL ∨
            withFirstLabel c (t.splittedURL.headD []) = t.parsedURL ++ dot)))) ∧
    (t.hasWildCard = false → HasPrefix c WildCard = false → c ≠ t.parsedURL →
      c ≠ t.parsedURL ++ dot → t.IsEqual c = .ret false) ∧
    ('.' ∉ t.splittedURL.headD [] → t.hasWildCard = false → firstLabel c = WildCard →
      withFirstLabel c (t.splittedURL.headD []) ≠ t.parsedURL →
      withFirstLabel c (t.splittedURL.headD []) ≠ t.parsedURL ++ dot →
      t.IsEqual c = .ret false) ∧
    (t.hasWildCard = true →
      (t.IsEqual c = .ret true ↔ (c = t.parsedURL ∨ c = t.parsedURL ++ dot))) := by
  obtain ⟨hN, hp, hw⟩ := hwf
  cases hL : t.splittedURL with
  | nil => exact absurd hL hN
  | cons a M =>
    have hcode := RecordName.IsEqual_eq t a M hL c
    have hn : t.parsedURL = a ++ Join ([] :: M) dot := by
      rw [hp, hL, Join_cons_eq]
    have hstar := star_prefix_iff_firstLabel c a (Join ([] :: M) dot) (Join_nil_cons_shape M)
    rw [← hn] at hstar
    simp only [List.headD_cons]
    have hmain : t.IsEqual c = .ret true ↔
        (c = t.parsedURL ∨ c = t.parsedURL ++ dot ∨
          (t.hasWildCard = false ∧ firstLabel c = WildCard ∧
            (withFirstLabel c a = t.parsedURL ∨ withFirstLabel c a = t.parsedURL ++ dot))) := by
      rw [hcode, ← hstar]
      simp only [Outcome.ret.injEq, decide_eq_true_eq]
      tauto
    refine ⟨⟨_, hcode⟩, hmain, ?_, ?_, ?_⟩
    · intro hwc hpre h1 h2
      rw [hcode]
      simp [h1, h2, hpre]
    · intro hdot hwc hfirst h1 h2
      have hane : a ≠ WildCard := by
        intro ha
        have : t.hasWildCard = true := hw.mpr (by rw [hL, ha]; rfl)
        rw [hwc] at this
        cases this
      have hfn : firstLabel t.parsedURL = a := by
        rw [hn]
        exact firstLabel_append a _ hdot (Join_nil_cons_shape M)
      have hfnd : firstLabel (t.parsedURL ++ dot) = a := by
        rw [hn, List.append_assoc]
        apply firstLabel_append a _ hdot
        rcases Join_nil_cons_shape M with h | ⟨u, h⟩
        · exact Or.inr ⟨[], by rw [h]; rfl⟩
        · exact Or.inr ⟨u ++ dot, by rw [h]; rfl⟩
      have hc1 : c ≠ t.parsedURL := by
        intro h
        rw [h, hfn] at hfirst
        exact hane hfirst
      have hc2 : c ≠ t.parsedURL ++ dot := by
        intro h
        rw [h, hfnd] at hfirst
        exact hane hfirst
      cases hres : t.IsEqual c with
      | panic m => rw [hcode] at hres; cases hres
      | ret b =>
        cases b with
        | false => rfl
        | true =>
          rcases hmain.mp hres with h | h | ⟨_, _, h | h⟩
          · exact absurd h hc1
          · exact absurd h hc2
          · exact absurd h h1
          · exact absurd h h2
    · intro hwc
      rw [hmain]
      simp [hwc]

/-- C5: `IsEqual` is reflexive: every `RecordName`, wildcard or not, matches its own
`GetParsedURL()` with and without a trailing `"."`. -/
theorem IsEqual_refl (t : RecordName) :
    t.IsEqual t.GetParsedURL = .ret true ∧ t.IsEqual (t.GetParsedURL ++ dot) = .ret true := by
  simp [RecordName.IsEqual, RecordName.GetParsedURL]

/-- C6: for a non-wildcard `RecordName` with non-empty labels, `GetWithWildCard`
returns a name `w` such that the token matches both `w` and `w + "."`. -/
theorem GetWithWildCard_matches (t : RecordName) (hwf : t.WellFormed)
    (hwc : t.hasWildCard = false) :
    ∃ w, t.GetWithWildCard = .ret (.ok w) ∧ t.IsEqual w = .ret true ∧
      t.IsEqual (w ++ dot) = .ret true :=
  ⟨_, RecordName.GetWithWildCard_eq t hwf.1 hwf.2.1,
    (RecordName.IsEqual_wildcard_form t hwf hwc).1,
    (RecordName.IsEqual_wildcard_form t hwf hwc).2⟩

/-- C6 at `"a.b.c"`: the wildcard form is `"*.b.c"` and the token matches the record
name `"*.b.c."`. -/
theorem GetWithWildCard_matches_witness :
    (RecordName.mk "a.b.c".toList "a.b.c".toList
        ["a".toList, "b".toList, "c".toList] false).GetWithWildCard
      = .ret (.ok "*.b.c".toList)
    ∧ (RecordName.mk "a.b.c".toList "a.b.c".toList
        ["a".toList, "b".toList, "c".toList] false).IsEqual "*.b.c.".toList = .ret true := by
  obtain ⟨w, hw, _, hdot⟩ := GetWithWildCard_matches
    (RecordName.mk "a.b.c".toList "a.b.c".toList ["a".toList, "b".toList, "c".toList] false)
    (by decide) rfl
  have hval : (RecordName.mk "a.b.c".toList "a.b.c".toList
      ["a".toList, "b".toList, "c".toList] false).GetWithWildCard
        = .ret (.ok "*.b.c".toList) := by decide
  rw [hval] at hw
  cases hw
  exact ⟨hval, hdot⟩

/-- C7: for a `RecordName` with labels `L` of length `N ≥ 1` and `parsedURL` the labels
joined by `"."`, `GetWithWildCard` returns no error and returns the labels with the
first one replaced by `"*"`, joined by `"."`; the first label may be empty or occur
again later in the name. -/
theorem GetWithWildCard_eq_join (r : RecordName) (L : List Str) (hL : r.splittedURL = L)
    (hN : 1 ≤ L.length) (hp : r.parsedURL = Join L dot) :
    r.GetWithWildCard = .ret (.ok (Join (WildCard :: L.tail) dot)) := by
  subst hL
  have hN' : r.splittedURL ≠ [] := by
    intro h
    rw [h] at hN
    simp at hN
  rw [RecordName.GetWithWildCard_eq r hN' hp, ← Join_cons_eq]

/-- C7 at the labels `["a","b","a"]` (first label occurring again) and `["","b"]` (empty
first label). -/
theorem GetWithWildCard_eq_join_witness :
    (RecordName.mk "a.b.a".toList "a.b.a".toList
        ["a".toList, "b".toList, "a".toList] false).GetWithWildCard
      = .ret (.ok "*.b.a".toList)
    ∧ (RecordName.mk ".b".toList ".b".toList ["".toList, "b".toList] false).GetWithWildCard
      = .ret (.ok "*.b".toList) :=
  ⟨GetWithWildCard_eq_join
      (RecordName.mk "a.b.a".toList "a.b.a".toList ["a".toList, "b".toList, "a".toList] false)
      ["a".toList, "b".toList, "a".toList] rfl (by decide) (by decide),
   GetWithWildCard_eq_join
      (RecordName.mk ".b".toList ".b".toList ["".toList, "b".toList] false)
      ["".toList, "b".toList] rfl (by decide) (by decide)⟩

/-- C4 at the token `"a.b.c"`: it matches the record name `"*.b.c."` and does not
match `"*.x.c"`. -/
theorem IsEqual_iff_witness :
    (RecordName.mk "a.b.c".toList "a.b.c".toList
        ["a".toList, "b".toList, "c".toList] false).IsEqual "*.b.c.".toList = .ret true
    ∧ (RecordName.mk "a.b.c".toList "a.b.c".toList
        ["a".toList, "b".toList, "c".toList] false).IsEqual "*.x.c".toList = .ret false :=
  ⟨(IsEqual_iff
      (RecordName.mk "a.b.c".toList "a.b.c".toList ["a".toList, "b".toList, "c".toList] false)
      (by decide) "*.b.c.".toList).2.1.mpr
        (Or.inr (Or.inr ⟨rfl, by decide, Or.inr (by decide)⟩)),
   (IsEqual_iff
      (RecordName.mk "a.b.c".toList "a.b.c".toList ["a".toList, "b".toList, "c".toList] false)
      (by decide) "*.x.c".toList).2.2.2.1
        (by decide) rfl (by decide) (by decide) (by decide)⟩

/-! ## Nameserver comparison -/

theorem countInto_append (m : List (Str × Nat)) (xs ys : List Str) :
    countInto m (xs ++ ys) = countInto (countInto m xs) ys := by
  induction xs generalizing m with
  | nil => rfl
  | cons n xs ih =>
    by_cases hn : n ≠ []
    · rw [List.cons_append]
      simp only [countInto, if_pos hn]
      exact ih _
    · rw [List.cons_append]
      simp only [countInto, if_neg hn]
      exact ih _

/-- The counting loop does not see empty strings. -/
theorem countInto_filter (m : List (Str × Nat)) (xs : List Str) :
    countInto m xs = countInto m (xs.filter (fun n => decide (n ≠ []))) := by
  induction xs generalizing m with
  | nil => rfl
  | cons n xs ih =>
    by_cases hn : n ≠ []
    · rw [List.filter_cons_of_pos (by simpa using hn)]
      simp only [countInto, if_pos hn]
      exact ih _
    · rw [List.filter_cons_of_neg (by simpa using hn)]
      simp only [countInto, if_neg hn]
      exact ih _

theorem counterGet_counterIncr (m : List (Str × Nat)) (n k : Str) :
    counterGet (counterIncr m n) k = counterGet m k + (if k = n then 1 else 0) := by
  induction m with
  | nil =>
    by_cases h : n = k
    · simp [counterIncr, counterGet, h]
    · have h' : ¬ k = n := fun e => h e.symm
      simp [counterIncr, counterGet, h, h']
  | cons e rest ih =>
    obtain ⟨key, c⟩ := e
    by_cases h1 : key = n
    · subst h1
      by_cases h2 : key = k
      · subst h2; simp [counterIncr, counterGet]
      · have h2' : ¬ k = key := fun e => h2 e.symm
        simp [counterIncr, counterGet, h2, h2']
    · by_cases h2 : key = k
      · subst h2; simp [counterIncr, counterGet, h1]
      · simp [counterIncr, counterGet, h1, h2, ih]

/-- After `nsCounter[n] += 1` some count exceeds `1` exactly when one did before or `n`
was already counted. -/
theorem any_counterIncr (m : List (Str × Nat)) (n : Str) :
    (counterIncr m n).any (fun e => decide (e.2 > 1)) = true ↔
      (m.any (fun e => decide (e.2 > 1)) = true ∨ 1 ≤ counterGet m n) := by
  induction m with
  | nil => simp [counterIncr, counterGet]
  | cons e rest ih =>
    obtain ⟨key, c⟩ := e
    by_cases h1 : key = n
    · subst h1
      simp only [counterIncr, if_true, counterGet, List.any_cons, Bool.or_eq_true,
        decide_eq_true_eq]
      constructor
      · rintro (h | h)
        · exact Or.inr (by omega)
        · exact Or.inl (Or.inr h)
      · rintro ((h | h) | h)
        · exact Or.inl (by omega)
        · exact Or.inr h
        · exact Or.inl (by omega)
    · simp only [counterIncr, if_neg h1, counterGet, List.any_cons, Bool.or_eq_true,
        decide_eq_true_eq, ih]
      tauto

/-- After a counting loop some count exceeds `1` exactly when one did before, or a
counted entry of the list was already in the map, or the list has the same non-empty
entry twice. -/
theorem any_countInto (xs : List Str) :
    ∀ m : List (Str × Nat),
      ((countInto m xs).any (fun e => decide (e.2 > 1)) = true ↔
        (m.any (fun e => decide (e.2 > 1)) = true ∨
          (∃ k ∈ xs.filter (fun n => decide (n ≠ [])), 1 ≤ counterGet m k) ∨
          ¬ (xs.filter (fun n => decide (n ≠ []))).Nodup)) := by
  induction xs with
  | nil => intro m; simp [countInto]
  | cons n xs ih =>
    intro m
    by_cases hn : n ≠ []
    · rw [List.filter_cons_of_pos (by simpa using hn)]
      simp only [countInto, if_pos hn]
      rw [ih, any_counterIncr, List.nodup_cons]
      simp only [counterGet_counterIncr, List.mem_cons]
      constructor
      · rintro ((h | h) | ⟨k, hk, h⟩ | h)
        · exact Or.inl h
        · exact Or.inr (Or.inl ⟨n, Or.inl rfl, h⟩)
        · by_cases hkn : k = n
          · subst hkn
            exact Or.inr (Or.inr (fun hnd => hnd.1 hk))
          · rw [if_neg hkn] at h
            exact Or.inr (Or.inl ⟨k, Or.inr hk, h⟩)
        · exact Or.inr (Or.inr (fun hnd => h hnd.2))
      · rintro (h | ⟨k, hk | hk, h⟩ | h)
        · exact Or.inl (Or.inl h)
        · subst hk
          exact Or.inl (Or.inr h)
        · exact Or.inr (Or.inl ⟨k, hk, by omega⟩)
        · by_cases hmem : n ∈ xs.filter (fun n => decide (n ≠ []))
          · exact Or.inr (Or.inl ⟨n, hmem, by simp⟩)
          · exact Or.inr (Or.inr (fun hnd => h ⟨hmem, hnd⟩))
    · rw [List.filter_cons_of_neg (by simpa using hn)]
      simp only [countInto, if_neg hn]
      exact ih m

/-- What `IsNSMatch` computes: whether some non-empty hostname is listed twice in the
two lists taken together. -/
theorem IsNSMatch_iff_not_nodup (ns1 ns2 : List Str) :
    IsNSMatch ns1 ns2 = true ↔ ¬ ((ns1 ++ ns2).filter (fun n => decide (n ≠ []))).Nodup := by
  unfold IsNSMatch
  simp only
  rw [← countInto_append, any_countInto]
  simp [counterGet]

/-- A non-empty hostname common to both lists makes `IsNSMatch` true; when neither list
repeats a non-empty hostname, that is the only way. -/
theorem IsNSMatch_common (ns1 ns2 : List Str) :
    ((∃ h, h ≠ [] ∧ h ∈ ns1 ∧ h ∈ ns2) → IsNSMatch ns1 ns2 = true) ∧
    ((ns1.filter (fun n => decide (n ≠ []))).Nodup →
      (ns2.filter (fun n => decide (n ≠ []))).Nodup →
      IsNSMatch ns1 ns2 = true → ∃ h, h ≠ [] ∧ h ∈ ns1 ∧ h ∈ ns2) := by
  rw [IsNSMatch_iff_not_nodup, List.filter_append, List.nodup_append]
  constructor
  · rintro ⟨h, hne, h1, h2⟩ ⟨_, _, hdisj⟩
    exact hdisj (List.mem_filter.mpr ⟨h1, by simpa using hne⟩)
      (List.mem_filter.mpr ⟨h2, by simpa using hne⟩)
  · intro hnd1 hnd2 hnot
    by_contra hno
    apply hnot
    refine ⟨hnd1, hnd2, ?_⟩
    intro h h1 h2
    have h1' := List.mem_filter.mp h1
    have h2' := List.mem_filter.mp h2
    exact hno ⟨h, by simpa using h1'.2, h1'.1, h2'.1⟩

/-- C8, on the code: `IsNSMatch(["ns-1.example.com","ns-1.example.com"],
["ns-2.example.org"])` is `true` although no hostname appears in both lists; the
claim's own two examples evaluate to `true` and `false`. -/
theorem IsNSMatch_repeated_in_one_list :
    IsNSMatch ["ns-1.example.com".toList, "ns-1.example.com".toList]
        ["ns-2.example.org".toList] = true
    ∧ ¬ (∃ h : Str, h ≠ [] ∧
          h ∈ ["ns-1.example.com".toList, "ns-1.example.com".toList] ∧
          h ∈ ["ns-2.example.org".toList])
    ∧ IsNSMatch ["a".toList, "b".toList, "c".toList] ["x".toList, "a".toList, "y".toList] = true
    ∧ IsNSMatch ["a".toList] ["b".toList] = false := by
  refine ⟨by decide, ?_, by decide, by decide⟩
  rintro ⟨h, _, h1, h2⟩
  simp only [List.mem_cons, List.mem_singleton, List.not_mem_nil, or_false, or_self] at h1 h2
  rw [h1] at h2
  revert h2
  decide

/-- C9: empty-string entries never affect `IsNSMatch`: the result on `ns1`, `ns2`
equals the result on the two lists with every `""` entry removed; and
`IsNSMatch([""], [""])` is false. -/
theorem IsNSMatch_ignores_empty (ns1 ns2 : List Str) :
    IsNSMatch ns1 ns2 =
        IsNSMatch (ns1.filter (fun n => decide (n ≠ []))) (ns2.filter (fun n => decide (n ≠ [])))
      ∧ IsNSMatch [[]] [[]] = false := by
  refine ⟨?_, by decide⟩
  unfold IsNSMatch
  simp only
  rw [countInto_filter [] ns1, countInto_filter _ ns2]

/-! ## The hosted-zone search -/

/-- C10, on the code: the account holds the zone `b.c.` whose only record set is
`x.b.c.`, which the token for `"a.b.c"` does not match, neither do the records listed
for the wildcard retry `"*.b.c"`; `LookupRecord` for the candidate `"b.c"` returns an
empty non-nil record slice with a nil error, and `GetRecordSetAliases("a.b.c", true)`
returns that zone with an empty `Records` list instead of going on to the candidate
`"c"`. -/
theorem GetRecordSetAliases_returns_zone_without_records :
    NewRecordName oneZoneEnv "a.b.c".toList = .ret (.ok tokenABC)
    ∧ tokenABC.GetAllOptionsForZoneName
        = .ret (.ok ["a.b.c".toList, "b.c".toList, "c".toList])
    ∧ tokenABC.IsEqual recordXBC.Name = .ret false
    ∧ tokenABC.GetWithWildCard = .ret (.ok "*.b.c".toList)
    ∧ getRecordsAliasesAndFilter oneZoneEnv "a.b.c".toList zoneBC.Id tokenABC = .ret (.ok [])
    ∧ getRecordsAliasesAndFilter oneZoneEnv "*.b.c".toList zoneBC.Id tokenABC = .ret (.ok [])
    ∧ LookupRecord oneZoneEnv "b.c".toList "a.b.c".toList tokenABC
        = .ret (some zoneBC, some [], none)
    ∧ GetRecordSetAliases oneZoneEnv newManager "a.b.c".toList true
        = .ret (.ok { Region := "us-east-1".toList, Records := [], HostedZone := some zoneBC,
                      Stream := tokenABC }, newManager) := by
  refine ⟨by decide, by decide, by decide, by decide, by decide, by decide, by decide, ?_⟩
  rfl

/-! ## net/url on plain hosts -/

/-- What the model of `net/url` needs of a host byte. -/
theorem hostChar_facts (c : Char) (hc : hostChar c = true) :
    c ≠ '#' ∧ c ≠ '?' ∧ c ≠ '/' ∧ c ≠ ':' ∧
      (decide (c.toNat < 32) || decide (c.toNat = 127)) = false := by
  refine ⟨?_, ?_, ?_, ?_, ?_⟩
  · rintro rfl; revert hc; decide
  · rintro rfl; revert hc; decide
  · rintro rfl; revert hc; decide
  · rintro rfl; revert hc; decide
  · simp only [hostChar, isAlphaByte, isDigitByte, Bool.or_eq_true, Bool.and_eq_true,
      decide_eq_true_eq] at hc
    rcases hc with (((h | h) | h) | h) | h
    · simp only [Bool.or_eq_false_iff, decide_eq_false_iff_not]; omega
    · simp only [Bool.or_eq_false_iff, decide_eq_false_iff_not]; omega
    · subst h; decide
    · subst h; decide
    · subst h; decide

theorem getScheme_http (x : Str) :
    getScheme ('h' :: 't' :: 't' :: 'p' :: ':' :: x) = .ok (['h', 't', 't', 'p'], x) := rfl

theorem getScheme_https (x : Str) :
    getScheme ('h' :: 't' :: 't' :: 'p' :: 's' :: ':' :: x)
      = .ok (['h', 't', 't', 'p', 's'], x) := rfl

/-- Where no `"%"` stands, every escape is well formed. -/
theorem validEscapes_of_no_percent (s : Str) (h : '%' ∉ s) : validEscapes s = true := by
  induction s with
  | nil => rfl
  | cons c cs ih =>
    have hc : c ≠ '%' := fun e => h (by simp [e])
    have hcs : '%' ∉ cs := fun e => h (List.mem_cons_of_mem _ e)
    rw [validEscapes.eq_def]
    simp only [if_neg hc]
    exact ih hcs

theorem validEscapes_slash (x : Str) : validEscapes ('/' :: x) = validEscapes x := by
  rw [validEscapes.eq_def]
  simp

/-- Both branches of the query cut leave the text in front of the first `"?"`. -/
theorem cutQuery_eq (rest : Str) : cutQuery rest = (Cut rest '?').1 := by
  unfold cutQuery
  split
  · rename_i hcond
    obtain ⟨init, hinit⟩ := List.isSuffixOf_iff_suffix.mp hcond.1
    subst hinit
    have hcount : init.count '?' = 0 := by
      have := hcond.2
      simp only [List.count_append, List.count_singleton_self] at this
      omega
    have hno : ∀ c ∈ init, (fun c => decide (c ≠ '?')) c = true := by
      intro c hc
      have : c ≠ '?' := by
        rintro rfl
        exact (List.count_eq_zero.mp hcount) hc
      simpa using this
    simp only [Cut]
    rw [List.takeWhile_append_of_pos hno, List.dropLast_concat]
    simp
  · rfl

/-- Behind the query cut, a plain host is returned as it stands when the path
unescapes. -/
theorem parseRest_plain (scheme h w : Str) (hs : scheme ≠ [])
    (hh : ∀ c ∈ h, hostChar c = true) (hw : w = [] ∨ ∃ p, w = '/' :: p) :
    parseRest scheme ('/' :: '/' :: (h ++ w)) =
      if validEscapes w = true then some (.ok h) else some (.error "invalid URL escape") := by
  have htake : (h ++ w).takeWhile (fun c => decide (c ≠ '/')) = h := by
    rw [List.takeWhile_append_of_pos (fun c hc => by simpa using (hostChar_facts c (hh c hc)).2.2.1)]
    rcases hw with hw | ⟨p, hw⟩ <;> simp [hw]
  have hdrop : (h ++ w).dropWhile (fun c => decide (c ≠ '/')) = w := by
    rw [List.dropWhile_append_of_pos (fun c hc => by simpa using (hostChar_facts c (hh c hc)).2.2.1)]
    rcases hw with hw | ⟨p, hw⟩ <;> simp [hw]
  have hauth : authorityHostname h = some (.ok h) := by
    unfold authorityHostname
    rw [if_pos (List.all_eq_true.mpr hh)]
  unfold parseRest
  rw [if_neg (by simp [HasPrefix]), if_neg (by simp [HasPrefix]),
    if_pos ⟨Or.inl hs, by simp [HasPrefix]⟩]
  simp only [List.drop_succ_cons, List.drop_zero, htake, hdrop, hauth]

/-- The prefix `scheme://host/` of a URL with a plain host holds no `"#"`, no `"?"`
and no control character. -/
theorem plain_prefix_facts (S h : Str) (hS : S = "http".toList ∨ S = "https".toList)
    (hh : ∀ c ∈ h, hostChar c = true) :
    ∀ c ∈ S ++ ':' :: '/' :: '/' :: (h ++ ['/']),
      c ≠ '#' ∧ c ≠ '?' ∧ (decide (c.toNat < 32) || decide (c.toNat = 127)) = false := by
  intro c hc
  simp only [List.mem_append, List.mem_cons, List.mem_singleton, List.not_mem_nil,
    or_false] at hc
  rcases hc with hc | hc | hc | hc | hc | hc
  · rcases hS with hS | hS <;> subst hS <;> revert c <;> decide
  · subst hc; decide
  · subst hc; decide
  · subst hc; decide
  · have := hostChar_facts c (hh c hc)
    exact ⟨this.1, this.2.1, this.2.2.2.2⟩
  · subst hc; decide

/-- The model of `parse` on `scheme://host/rest` for the schemes `http` and `https` and
a plain host: a control character in the rest or a malformed escape in front of its
first `"?"` gives an error, otherwise the host. -/
theorem parseHostname_plain (S h t : Str) (hS : S = "http".toList ∨ S = "https".toList)
    (hh : ∀ c ∈ h, hostChar c = true) :
    parseHostname (S ++ ':' :: '/' :: '/' :: (h ++ '/' :: t)) =
      if stringContainsCTLByte t = true then
        some (.error "net/url: invalid control character in URL")
      else if validEscapes (Cut t '?').1 = true then some (.ok h)
      else some (.error "invalid URL escape") := by
  have hfacts := plain_prefix_facts S h hS hh
  have hraw : S ++ ':' :: '/' :: '/' :: (h ++ '/' :: t)
      = (S ++ ':' :: '/' :: '/' :: (h ++ ['/'])) ++ t := by simp
  have hctl : stringContainsCTLByte (S ++ ':' :: '/' :: '/' :: (h ++ '/' :: t))
      = stringContainsCTLByte t := by
    rw [hraw]
    unfold stringContainsCTLByte
    rw [List.any_append]
    have : (S ++ ':' :: '/' :: '/' :: (h ++ ['/'])).any
        (fun c => decide (c.toNat < 32) || decide (c.toNat = 127)) = false := by
      rw [List.any_eq_false]
      intro c hc
      simp [(hfacts c hc).2.2]
    rw [this, Bool.false_or]
  have hcut : cutQuery ('/' :: '/' :: (h ++ '/' :: t))
      = '/' :: '/' :: (h ++ '/' :: (Cut t '?').1) := by
    rw [cutQuery_eq]
    have h1 : '/' :: '/' :: (h ++ '/' :: t) = ('/' :: '/' :: (h ++ ['/'])) ++ t := by simp
    simp only [Cut]
    rw [h1, List.takeWhile_append_of_pos]
    · simp
    · intro c hc
      have := (hfacts c (by
        simp only [List.mem_append, List.mem_cons, List.mem_singleton, List.not_mem_nil,
          or_false] at hc ⊢
        tauto)).2.1
      simpa using this
  unfold parseHostname
  rw [hctl]
  split
  · rfl
  · have hstar : S ++ ':' :: '/' :: '/' :: (h ++ '/' :: t) ≠ ['*'] := by
      rcases hS with hS | hS <;> subst hS <;> simp
    rw [if_neg hstar]
    rcases hS with hS | hS
    · subst hS
      have hsch := getScheme_http ('/' :: '/' :: (h ++ '/' :: t))
      simp only [String.toList, List.cons_append, List.nil_append] at hsch ⊢
      rw [hsch]
      simp only [hcut]
      rw [parseRest_plain _ h ('/' :: (Cut t '?').1) (by simp) hh (Or.inr ⟨_, rfl⟩),
        validEscapes_slash]
    · subst hS
      have hsch := getScheme_https ('/' :: '/' :: (h ++ '/' :: t))
      simp only [String.toList, List.cons_append, List.nil_append] at hsch ⊢
      rw [hsch]
      simp only [hcut]
      rw [parseRest_plain _ h ('/' :: (Cut t '?').1) (by simp) hh (Or.inr ⟨_, rfl⟩),
        validEscapes_slash]

/-- The model of `url.Parse` and `Hostname` on `scheme://host/rest` for the schemes
`http` and `https` and a plain host: the host when the rest is accepted, an error
otherwise. -/
theorem ParseHostname_plain (S h t : Str) (hS : S = "http".toList ∨ S = "https".toList)
    (hh : ∀ c ∈ h, hostChar c = true) :
    (acceptedTail t = true →
      ParseHostname (S ++ ':' :: '/' :: '/' :: (h ++ '/' :: t)) = some (.ok h)) ∧
    (acceptedTail t = false →
      ∃ err, ParseHostname (S ++ ':' :: '/' :: '/' :: (h ++ '/' :: t)) = some (.error err)) := by
  have hfacts := plain_prefix_facts S h hS hh
  have hraw : S ++ ':' :: '/' :: '/' :: (h ++ '/' :: t)
      = (S ++ ':' :: '/' :: '/' :: (h ++ ['/'])) ++ t := by simp
  have hpos : ∀ c ∈ S ++ ':' :: '/' :: '/' :: (h ++ ['/']),
      (fun c => decide (c ≠ '#')) c = true := fun c hc => by simpa using (hfacts c hc).1
  have hu : (Cut (S ++ ':' :: '/' :: '/' :: (h ++ '/' :: t)) '#').1
      = S ++ ':' :: '/' :: '/' :: (h ++ '/' :: (Cut t '#').1) := by
    simp only [Cut]
    rw [hraw, List.takeWhile_append_of_pos hpos]
    simp
  have hfrag : (Cut (S ++ ':' :: '/' :: '/' :: (h ++ '/' :: t)) '#').2 = (Cut t '#').2 := by
    simp only [Cut]
    rw [hraw, List.dropWhile_append_of_pos hpos]
  have hparse := parseHostname_plain S h (Cut t '#').1 hS hh
  unfold ParseHostname
  simp only [hu, hfrag, hparse]
  unfold acceptedTail
  cases h1 : stringContainsCTLByte (Cut t '#').1 <;>
    cases h2 : validEscapes (Cut (Cut t '#').1 '?').1 <;>
    cases h3 : validEscapes (Cut t '#').2 <;> simp
  · have hne : (Cut t '#').2 ≠ [] := by
      intro hnil
      rw [hnil] at h3
      cases h3
    rw [if_neg hne]
    exact ⟨_, rfl⟩

theorem netURLEnv_agrees : netURLEnv.AgreesWithNetURL := by
  intro s _
  constructor
  · intro host h
    show netURLHostname s = .ok host
    simp [netURLHostname, h]
  · intro err h
    refine ⟨err, ?_⟩
    show netURLHostname s = .error err
    simp [netURLHostname, h]

/-- A text that begins with a `":"`-free part followed by `"/"` does not begin with a
text that has `":"` before any `"/"`. -/
theorem not_prefix_colon (a b : Str) (ha : '/' ∉ a) :
    ∀ h t : Str, ':' ∉ h → ¬ (a ++ ':' :: b) <+: (h ++ '/' :: t) := by
  induction a with
  | nil =>
    intro h t hh hpre
    cases h with
    | nil =>
      simp only [List.nil_append, List.cons_prefix_cons] at hpre
      exact absurd hpre.1 (by decide)
    | cons x xs =>
      simp only [List.nil_append, List.cons_append, List.cons_prefix_cons] at hpre
      exact hh (by rw [← hpre.1]; exact List.mem_cons_self _ _)
  | cons y ys ih =>
    intro h t hh hpre
    cases h with
    | nil =>
      simp only [List.nil_append, List.cons_append, List.cons_prefix_cons] at hpre
      exact ha (by simp [hpre.1])
    | cons x xs =>
      simp only [List.cons_append, List.cons_prefix_cons] at hpre
      exact ih (fun hm => ha (List.mem_cons_of_mem _ hm)) xs t
        (fun hm => hh (List.mem_cons_of_mem _ hm)) hpre.2

/-- A plain host followed by `"/"` carries no `http://` or `https://` prefix. -/
theorem no_scheme_prefix (h t : Str) (hh : ∀ c ∈ h, hostChar c = true) :
    HasPrefix (h ++ '/' :: t) "http://".toList = false ∧
      HasPrefix (h ++ '/' :: t) "https://".toList = false := by
  have hcolon : ':' ∉ h := fun hm => (hostChar_facts _ (hh _ hm)).2.2.2.1 rfl
  constructor
  · rw [Bool.eq_false_iff]
    intro hp
    exact not_prefix_colon "http".toList "//".toList (by decide) h t hcolon
      (List.isPrefixOf_iff_prefix.mp hp)
  · rw [Bool.eq_false_iff]
    intro hp
    exact not_prefix_colon "https".toList "//".toList (by decide) h t hcolon
      (List.isPrefixOf_iff_prefix.mp hp)

/-- Where the path holds no `"#"` and no `"?"` and the query no `"#"`, the rest
`path?query` is accepted exactly when neither holds a control character and the
escapes of the path are well formed. -/
theorem acceptedTail_path_query (p q : Str) (hp : '#' ∉ p) (hp' : '?' ∉ p) (hq : '#' ∉ q) :
    acceptedTail (p ++ '?' :: q)
      = (!stringContainsCTLByte p && !stringContainsCTLByte q && validEscapes p) := by
  have hall : ∀ c ∈ p ++ '?' :: q, (fun c => decide (c ≠ '#')) c = true := by
    intro c hc
    have : c ≠ '#' := by
      rintro rfl
      rcases List.mem_append.mp hc with hc | hc
      · exact hp hc
      · rcases List.mem_cons.mp hc with hc | hc
        · exact absurd hc (by decide)
        · exact hq hc
    simpa using this
  have h1 : (Cut (p ++ '?' :: q) '#') = (p ++ '?' :: q, []) := by
    simp only [Cut]
    rw [List.takeWhile_eq_self_iff.mpr hall, List.dropWhile_eq_nil_iff.mpr hall]
    rfl
  have h2 : (Cut (p ++ '?' :: q) '?').1 = p := by
    simp only [Cut]
    rw [List.takeWhile_append_of_pos (fun c hc => by
      have : c ≠ '?' := by rintro rfl; exact hp' hc
      simpa using this)]
    simp
  have h3 : stringContainsCTLByte (p ++ '?' :: q)
      = (stringContainsCTLByte p || stringContainsCTLByte q) := by
    unfold stringContainsCTLByte
    rw [List.any_append, List.any_cons]
    have : (decide ('?'.toNat < 32) || decide ('?'.toNat = 127)) = false := by decide
    rw [this, Bool.false_or]
  unfold acceptedTail
  rw [h1]
  simp only [h2, h3]
  have h4 : validEscapes [] = true := rfl
  rw [h4]
  cases stringContainsCTLByte p <;> cases stringContainsCTLByte q <;> simp

/-- The result of `StripRecord` on `scheme + host + "/" + rest` for the schemes
`http://`, `https://` and none, with a plain host: the host split on `"."` when
`url.Parse` accepts the rest, and the error of `url.Parse` when it does not. -/
theorem StripRecord_plain (env : Env) (henv : env.AgreesWithNetURL) (h t : Str)
    (hh : ∀ c ∈ h, hostChar c = true) (raw : Str)
    (hraw : raw = "https://".toList ++ h ++ "/".toList ++ t ∨
      raw = "http://".toList ++ h ++ "/".toList ++ t ∨ raw = h ++ "/".toList ++ t) :
    (acceptedTail t = true → StripRecord env raw = .ok (Split h '.')) ∧
    (acceptedTail t = false → ∃ err, StripRecord env raw = .error err) := by
  have hpre : ∀ S : Str, S = "http".toList ∨ S = "https".toList →
      HasPrefix (S ++ ':' :: '/' :: '/' :: (h ++ '/' :: t)) "http://".toList = true ∨
        HasPrefix (S ++ ':' :: '/' :: '/' :: (h ++ '/' :: t)) "https://".toList = true := by
    intro S hS
    rcases hS with hS | hS
    · exact Or.inl (by subst hS; simp [HasPrefix])
    · exact Or.inr (by subst hS; simp [HasPrefix])
  have key1 : ∀ S : Str, S = "http".toList ∨ S = "https".toList → acceptedTail t = true →
      env.Hostname (S ++ ':' :: '/' :: '/' :: (h ++ '/' :: t)) = .ok h :=
    fun S hS ha => (henv _ (hpre S hS)).1 _ ((ParseHostname_plain S h t hS hh).1 ha)
  have key2 : ∀ S : Str, S = "http".toList ∨ S = "https".toList → acceptedTail t = false →
      ∃ err, env.Hostname (S ++ ':' :: '/' :: '/' :: (h ++ '/' :: t)) = .error err := by
    intro S hS ha
    obtain ⟨err, hp⟩ := (ParseHostname_plain S h t hS hh).2 ha
    exact (henv _ (hpre S hS)).2 _ hp
  have hstrip : ∃ S : Str, (S = "http".toList ∨ S = "https".toList) ∧
      (∀ host, env.Hostname (S ++ ':' :: '/' :: '/' :: (h ++ '/' :: t)) = .ok host →
        StripRecord env raw = .ok (Split host '.')) ∧
      (∀ err, env.Hostname (S ++ ':' :: '/' :: '/' :: (h ++ '/' :: t)) = .error err →
        StripRecord env raw = .error err) := by
    rcases hraw with hraw | hraw | hraw
    · refine ⟨"https".toList, Or.inr rfl, ?_, ?_⟩ <;> intro x hx <;> subst hraw <;>
        simp only [String.toList, List.cons_append, List.nil_append] at hx <;>
        simp [StripRecord, HasPrefix, hx]
    · refine ⟨"http".toList, Or.inl rfl, ?_, ?_⟩ <;> intro x hx <;> subst hraw <;>
        simp only [String.toList, List.cons_append, List.nil_append] at hx <;>
        simp [StripRecord, HasPrefix, hx]
    · have hno := no_scheme_prefix h t hh
      simp only [String.toList, List.singleton_append] at hno
      refine ⟨"http".toList, Or.inl rfl, ?_, ?_⟩ <;> intro x hx <;> subst hraw <;>
        simp only [String.toList, List.cons_append, List.nil_append] at hx <;>
        simp [StripRecord, hno.1, hno.2, hx]
  obtain ⟨S, hS, hok, herr⟩ := hstrip
  constructor
  · intro ha
    exact hok _ (key1 S hS ha)
  · intro ha
    obtain ⟨err, hk⟩ := key2 S hS ha
    exact ⟨err, herr _ hk⟩

/-! ## Construction: trailing dot and empty host -/

theorem index_append_last {α : Type} (init : List α) (z : α) :
    index (init ++ [z]) ((init ++ [z]).length - 1) = .ret z := by
  simp [index]

theorem Split_append_sep (h : Str) (c : Char) : Split (h ++ [c]) c = Split h c ++ [[]] := by
  induction h with
  | nil => simp [Split]
  | cons x xs ih =>
    by_cases hx : x = c
    · simp [Split, hx, ih]
    · cases hsplit : Split xs c with
      | nil => exact absurd hsplit (Split_ne_nil xs c)
      | cons p ps =>
        rw [hsplit] at ih
        simp [Split, hx, ih, hsplit]

/-- One more byte that is not the separator goes to the end of the last piece. -/
theorem Split_append_other (y c : Char) (hy : y ≠ c) (h : Str) :
    ∃ init last, Split h c = init ++ [last] ∧ Split (h ++ [y]) c = init ++ [last ++ [y]] := by
  induction h with
  | nil => exact ⟨[], [], rfl, by simp [Split, hy]⟩
  | cons x xs ih =>
    obtain ⟨init, last, h1, h2⟩ := ih
    by_cases hx : x = c
    · exact ⟨[] :: init, last, by simp [Split, hx, h1], by simp [Split, hx, h2]⟩
    · cases init with
      | nil =>
        exact ⟨[], x :: last, by simp [Split, hx, h1], by simp [Split, hx, h2]⟩
      | cons p ps =>
        exact ⟨(x :: p) :: ps, last, by simp [Split, hx, h1], by simp [Split, hx, h2]⟩

/-- The last piece of a non-empty name that does not end in the separator is not
empty. -/
theorem Split_last_nonempty (h : Str) (c : Char) (hne : h ≠ []) (hlast : h.getLast? ≠ some c) :
    ∃ init last, Split h c = init ++ [last] ∧ last ≠ [] := by
  obtain ⟨h', y, rfl⟩ : ∃ h' y, h = h' ++ [y] :=
    ⟨h.dropLast, h.getLast hne, (List.dropLast_append_getLast hne).symm⟩
  have hy : y ≠ c := by
    intro e
    apply hlast
    simp [e]
  obtain ⟨init, last, _, h2⟩ := Split_append_other y c hy h'
  exact ⟨init, last ++ [y], h2, by simp⟩

/-- What `NewRecordName` does with the pieces `StripRecord` returns: a last piece that
is not empty keeps all pieces; an empty last piece is dropped; and when the empty piece
is the only one, the read of `splitted[0]` panics. -/
theorem NewRecordName_of_pieces (env : Env) (raw : Str) (init : List Str) (last : Str)
    (hs : StripRecord env raw = .ok (init ++ [last])) :
    (last ≠ [] → NewRecordName env raw = .ret (.ok
      { rawURL := raw, parsedURL := Join (init ++ [last]) dot, splittedURL := init ++ [last],
        hasWildCard := decide ((init ++ [last]).headD [] = WildCard) })) ∧
    (last = [] → init ≠ [] → NewRecordName env raw = .ret (.ok
      { rawURL := raw, parsedURL := Join init dot, splittedURL := init,
        hasWildCard := decide (init.headD [] = WildCard) })) ∧
    (last = [] → init = [] → NewRecordName env raw = .panic "index out of range") := by
  unfold NewRecordName
  rw [hs]
  simp only [index_append_last, Outcome.ret_bind]
  refine ⟨?_, ?_, ?_⟩
  · intro hl
    rw [if_neg hl]
    cases init <;> simp
  · intro hl hi
    rw [if_pos hl]
    have hsl : slice (init ++ [last]) 0 ((init ++ [last]).length - 1) = .ret init := by
      simp [slice]
    rw [hsl]
    cases init with
    | nil => exact absurd rfl hi
    | cons p ps => simp
  · intro hl hi
    subst hl hi
    rfl

/-- The zone loop of `LookupRecord` stops at the first zone whose name is `hzName + "."`
and runs the zone body there; without such a zone it ends in `LookupNotFoundErr`. -/
theorem lookupLoop_find (env : Env) (hzName record : Str) (recordName : RecordName)
    (result : List ResourceRecordSet) (zones : List HostedZone) :
    lookupLoop env hzName record recordName result zones =
      match zones.find? (fun hz => decide (hz.Name = hzName ++ dot)) with
      | some hz => lookupInZone env record recordName hz result
      | none => .ret (none, none, some "LookupNotFoundErr") := by
  induction zones with
  | nil => rfl
  | cons hz rest ih =>
    by_cases h : hz.Name = hzName ++ dot
    · simp [lookupLoop, List.find?, h]
    · simp [lookupLoop, List.find?, h, ih]

/-- A candidate for which the provider's answer holds no zone of that exact name (an
error, an empty list, or only other names) gives a nil record slice. -/
theorem LookupRecord_no_zone (env : Env) (c record : Str) (recordName : RecordName)
    (h : ∀ zones, env.ListHostedZonesByName c = .ok zones → ∀ hz ∈ zones, hz.Name ≠ c ++ dot) :
    ∃ err, LookupRecord env c record recordName = .ret (none, none, err) := by
  unfold LookupRecord
  cases hz : env.ListHostedZonesByName c with
  | error e => exact ⟨some e, rfl⟩
  | ok zones =>
    simp only
    by_cases hlen : zones.length = 0
    · exact ⟨none, by rw [if_pos hlen]⟩
    · rw [if_neg hlen, lookupLoop_find]
      have hnone : zones.find? (fun hz => decide (hz.Name = c ++ dot)) = none := by
        rw [List.find?_eq_none]
        intro z hzmem
        simpa using h zones hz z hzmem
      rw [hnone]
      exact ⟨_, rfl⟩

/-- The search loop goes on to the next candidate when `LookupRecord` returns a
non-nil error. -/
theorem searchLoop_skip_error (env : Env) (skip : Bool) (recordName : Str)
    (recordStream : RecordName) (c : Str) (rest : List Str) (r53m : Route53Manager)
    (hz : Option HostedZone) (records : Option (List ResourceRecordSet)) (e : Err)
    (h : LookupRecord env c recordName recordStream = .ret (hz, records, some e)) :
    searchLoop env skip recordName recordStream (c :: rest) r53m =
      searchLoop env skip recordName recordStream rest r53m := by
  rw [searchLoop, h]
  rfl

/-- The search loop goes on to the next candidate when `LookupRecord` returns a nil
record slice. -/
theorem searchLoop_skip_nil (env : Env) (skip : Bool) (recordName : Str)
    (recordStream : RecordName) (c : Str) (rest : List Str) (r53m : Route53Manager)
    (hz : Option HostedZone) (err : Option Err)
    (h : LookupRecord env c recordName recordStream = .ret (hz, none, err)) :
    searchLoop env skip recordName recordStream (c :: rest) r53m =
      searchLoop env skip recordName recordStream rest r53m := by
  rw [searchLoop, h]
  cases err <;> rfl

/-- After a successful construction of the token and of the candidate list,
`GetRecordSetAliases` is the search loop over the candidates. -/
theorem GetRecordSetAliases_eq_searchLoop (env : Env) (r53m : Route53Manager) (raw : Str)
    (skip : Bool) (recordStream : RecordName) (opts : List Str)
    (hnew : NewRecordName env raw = .ret (.ok recordStream))
    (hopts : recordStream.GetAllOptionsForZoneName = .ret (.ok opts)) :
    GetRecordSetAliases env r53m raw skip =
      searchLoop env skip recordStream.parsedURL recordStream opts r53m := by
  unfold GetRecordSetAliases
  rw [hnew]
  simp only [Outcome.ret_bind]
  rw [hopts]
  rfl

/-- Candidates whose lookups all give a nil record slice exhaust the search. -/
theorem searchLoop_exhausted (env : Env) (skip : Bool) (recordName : Str)
    (recordStream : RecordName) (r53m : Route53Manager) (opts : List Str)
    (h : ∀ c ∈ opts, ∃ err, LookupRecord env c recordName recordStream = .ret (none, none, err)) :
    searchLoop env skip recordName recordStream opts r53m =
      .ret (.error "NoRecordMatchFound", r53m) := by
  induction opts with
  | nil => rfl
  | cons c rest ih =>
    obtain ⟨err, herr⟩ := h c (List.mem_cons_self _ _)
    rw [searchLoop_skip_nil env skip recordName recordStream c rest r53m none err herr]
    exact ih (fun c' hc' => h c' (List.mem_cons_of_mem _ hc'))

/-- C13: for an input that `NewRecordName` parses and whose candidate list is produced
without error, if for no candidate `c` the provider's answer for `c` holds a hosted
zone named `c + "."`, `GetRecordSetAliases` returns a nil result with the error
`NoRecordMatchFound`, whatever `skipNSVerification` is. -/
theorem GetRecordSetAliases_no_zone (env : Env) (r53m : Route53Manager) (raw : Str)
    (skip : Bool) (recordStream : RecordName) (opts : List Str)
    (hnew : NewRecordName env raw = .ret (.ok recordStream))
    (hopts : recordStream.GetAllOptionsForZoneName = .ret (.ok opts))
    (hzones : ∀ c ∈ opts, ∀ zones, env.ListHostedZonesByName c = .ok zones →
      ∀ hz ∈ zones, hz.Name ≠ c ++ dot) :
    GetRecordSetAliases env r53m raw skip = .ret (.error "NoRecordMatchFound", r53m) := by
  rw [GetRecordSetAliases_eq_searchLoop env r53m raw skip recordStream opts hnew hopts]
  exact searchLoop_exhausted env skip _ recordStream r53m opts
    (fun c hc => LookupRecord_no_zone env c _ recordStream (hzones c hc))

theorem GetRecordSetAliases_panic_new (env : Env) (r53m : Route53Manager) (raw : Str)
    (skip : Bool) (err : Err) (hnew : NewRecordName env raw = .ret (.error err)) :
    GetRecordSetAliases env r53m raw skip = .panic err := by
  unfold GetRecordSetAliases
  rw [hnew]
  rfl

theorem GetRecordSetAliases_panic_options (env : Env) (r53m : Route53Manager) (raw : Str)
    (skip : Bool) (recordStream : RecordName) (err : Err)
    (hnew : NewRecordName env raw = .ret (.ok recordStream))
    (hopts : recordStream.GetAllOptionsForZoneName = .ret (.error err)) :
    GetRecordSetAliases env r53m raw skip = .panic err := by
  unfold GetRecordSetAliases
  rw [hnew]
  simp only [Outcome.ret_bind]
  rw [hopts]
  rfl


/-- The filter loop appends the listed record sets the token matches, in order. -/
theorem filterLoop_eq (recordStream : RecordName) (listed : List ResourceRecordSet) :
    ∀ acc out, filterLoop recordStream listed acc = .ret out →
      out = acc ++ listed.filter (fun rs => decide (recordStream.IsEqual rs.Name = .ret true)) := by
  induction listed with
  | nil =>
    intro acc out h
    simp only [filterLoop, Outcome.ret.injEq] at h
    simp [h]
  | cons rs rest ih =>
    intro acc out h
    rw [filterLoop] at h
    cases heq : recordStream.IsEqual rs.Name with
    | panic m => rw [heq] at h; cases h
    | ret b =>
      rw [heq] at h
      simp only [Outcome.ret_bind] at h
      cases b with
      | true =>
        simp only [if_true] at h
        rw [ih _ _ h]
        simp [List.filter_cons, heq]
      | false =>
        simp only [Bool.false_eq_true, if_false] at h
        rw [ih _ _ h]
        simp [List.filter_cons, heq]

/-- An empty result of the filter: no listed record set is matched. -/
theorem filterLoop_nil (recordStream : RecordName) (listed out : List ResourceRecordSet)
    (h : filterLoop recordStream listed [] = .ret out) (hlen : out.length = 0) :
    ∀ rs ∈ listed, recordStream.IsEqual rs.Name ≠ .ret true := by
  have := filterLoop_eq recordStream listed [] out h
  rw [this] at hlen
  simp only [List.nil_append, List.length_eq_zero, List.filter_eq_nil_iff,
    decide_eq_true_eq] at hlen
  exact hlen

/-- The two ways `LookupRecord` ends inside a zone of the exact name, for a constructed
token: a nil zone, nil records and an error, which happens exactly when a listing of
the zone's record sets fails; or the zone with the non-nil slice of the record sets
found and no error. -/
theorem lookupInZone_cases (env : Env) (record : Str) (recordName : RecordName)
    (hwf : recordName.WellFormed) (hz : HostedZone) (res : LookupResult)
    (h : lookupInZone env record recordName hz [] = .ret res) :
    (∃ err, res = (none, none, some err) ∧ NoRecordsObtained env recordName hz record) ∨
    (∃ records, res = (some hz, some records, none) ∧
      FoundRecords env recordName hz record records) := by
  unfold lookupInZone getRecordsAliasesAndFilter getRecordAliases at h
  dsimp only at h
  cases hlist : env.ListResourceRecordSets hz.Id record with
  | error e =>
    rw [hlist] at h
    simp only [Outcome.ret_bind, Outcome.pure_eq, Outcome.ret.injEq] at h
    exact Or.inl ⟨e, h.symm, Or.inl ⟨e, hlist⟩⟩
  | ok listed =>
    rw [hlist] at h
    simp only at h
    cases hf : filterLoop recordName listed [] with
    | panic m => rw [hf] at h; cases h
    | ret filtered =>
      rw [hf] at h
      simp only [Outcome.ret_bind, Outcome.pure_eq] at h
      have hfilt : filtered = matchingRecords recordName listed := by
        have := filterLoop_eq recordName listed [] filtered hf
        simpa [matchingRecords] using this
      split at h
      · rename_i hcond
        have hempty : matchingRecords recordName listed = [] := by
          rw [← hfilt]
          exact List.length_eq_zero.mp hcond.1
        have hwc : recordName.hasWildCard = false := hcond.2
        have hw := RecordName.GetWithWildCard_eq recordName hwf.1 hwf.2.1
        rw [hw] at h
        simp only [Outcome.ret_bind] at h
        cases hlist2 : env.ListResourceRecordSets hz.Id
            (WildCard ++ Join ([] :: recordName.splittedURL.tail) dot) with
        | error e =>
          rw [hlist2] at h
          simp only [Outcome.ret_bind, Outcome.pure_eq, Outcome.ret.injEq] at h
          exact Or.inl ⟨e, h.symm, Or.inr ⟨listed, _, e, hlist, hempty, hwc, hw, hlist2⟩⟩
        | ok listed2 =>
          rw [hlist2] at h
          simp only at h
          cases hf2 : filterLoop recordName listed2 [] with
          | panic m => rw [hf2] at h; cases h
          | ret filtered2 =>
            rw [hf2] at h
            simp only [Outcome.ret_bind, Outcome.pure_eq, Outcome.ret.injEq,
              List.nil_append] at h
            have hfilt2 : filtered2 = matchingRecords recordName listed2 := by
              have := filterLoop_eq recordName listed2 [] filtered2 hf2
              simpa [matchingRecords] using this
            exact Or.inr ⟨filtered2, h.symm, listed, hlist,
              Or.inr ⟨hempty, hwc, _, listed2, hw, hlist2, hfilt2⟩⟩
      · rename_i hcond
        simp only [Outcome.pure_eq, Outcome.ret.injEq, List.nil_append] at h
        refine Or.inr ⟨filtered, h.symm, listed, hlist, Or.inl ⟨?_, hfilt⟩⟩
        rw [← hfilt]
        by_cases hlen : filtered.length = 0
        · right
          by_contra hne
          exact hcond ⟨hlen, by simpa [RecordName.HasWildCard] using hne⟩
        · left
          intro hnil
          exact hlen (by rw [hnil]; rfl)

/-- The two ways `LookupRecord` returns for a constructed token: nil records for a
candidate without an exact zone or with a failed listing of the zone's record sets; or
the first zone of the exact name with the non-nil slice of the record sets found and no
error. -/
theorem LookupRecord_cases (env : Env) (c record : Str) (recordName : RecordName)
    (hwf : recordName.WellFormed) (res : LookupResult)
    (h : LookupRecord env c record recordName = .ret res) :
    (∃ err, res = (none, none, err) ∧
      (NoExactZone env c ∨ ∃ zones hz, env.ListHostedZonesByName c = .ok zones ∧
        zones.find? (fun z => decide (z.Name = c ++ dot)) = some hz ∧
        NoRecordsObtained env recordName hz record)) ∨
    (∃ zones hz records, env.ListHostedZonesByName c = .ok zones ∧
      zones.find? (fun z => decide (z.Name = c ++ dot)) = some hz ∧
      hz.Name = c ++ dot ∧ FoundRecords env recordName hz record records ∧
      res = (some hz, some records, none)) := by
  unfold LookupRecord at h
  cases hzl : env.ListHostedZonesByName c with
  | error e =>
    rw [hzl] at h
    simp only [Outcome.ret.injEq] at h
    refine Or.inl ⟨some e, h.symm, Or.inl ?_⟩
    intro zones hz'
    rw [hzl] at hz'
    cases hz'
  | ok zones =>
    rw [hzl] at h
    simp only at h
    by_cases hlen : zones.length = 0
    · rw [if_pos hlen] at h
      simp only [Outcome.ret.injEq] at h
      refine Or.inl ⟨none, h.symm, Or.inl ?_⟩
      intro zones' hz' z hzmem
      rw [hzl] at hz'
      cases hz'
      rw [List.length_eq_zero] at hlen
      rw [hlen] at hzmem
      cases hzmem
    · rw [if_neg hlen, lookupLoop_find] at h
      cases hfind : zones.find? (fun z => decide (z.Name = c ++ dot)) with
      | none =>
        rw [hfind] at h
        simp only [Outcome.ret.injEq] at h
        refine Or.inl ⟨_, h.symm, Or.inl ?_⟩
        intro zones' hz' z hzmem
        rw [hzl] at hz'
        cases hz'
        rw [List.find?_eq_none] at hfind
        simpa using hfind z hzmem
      | some hz =>
        rw [hfind] at h
        simp only at h
        have hname : hz.Name = c ++ dot := by
          simpa using List.find?_some hfind
        rcases lookupInZone_cases env record recordName hwf hz res h with
          ⟨err, hres, hno⟩ | ⟨records, hres, hfound⟩
        · exact Or.inl ⟨some err, hres, Or.inr ⟨zones, hz, rfl, hfind, hno⟩⟩
        · exact Or.inr ⟨zones, hz, records, rfl, hfind, hname, hfound, hres⟩

/-- A successful search of a constructed token returns what the successful candidate
gives, and every candidate in front of that one is a non-match. -/
theorem searchLoop_ok (env : Env) (skip : Bool) (recordName : Str) (recordStream : RecordName)
    (hwf : recordStream.WellFormed) (res : GetRecordAliasesResult) (after : Route53Manager)
    (opts : List Str) :
    ∀ r53m, searchLoop env skip recordName recordStream opts r53m = .ret (.ok res, after) →
      ∃ pre c post Z mid, opts = pre ++ c :: post ∧ res.HostedZone = some Z ∧
        Z.Name = c ++ dot ∧ AllNonMatch env skip recordName recordStream pre r53m mid ∧
        IsMatch env skip recordName recordStream c mid after res := by
  induction opts with
  | nil =>
    intro r53m h
    simp [searchLoop] at h
  | cons c rest ih =>
    intro r53m h
    cases hl : LookupRecord env c recordName recordStream with
    | panic m =>
      rw [searchLoop, hl] at h
      cases h
    | ret res0 =>
      rcases LookupRecord_cases env c recordName recordStream hwf res0 hl with
        ⟨err, hres, hwhy⟩ | ⟨zones, hz, records, hzl, hfind, hname, hfound, hres⟩
      · subst hres
        rw [searchLoop_skip_nil env skip recordName recordStream c rest r53m none err hl] at h
        obtain ⟨pre, c', post, Z, mid, hopts, hZ, hZname, hall, hmatch⟩ := ih r53m h
        refine ⟨c :: pre, c', post, Z, mid, by rw [hopts]; rfl, hZ, hZname, ?_, hmatch⟩
        refine AllNonMatch.cons c pre r53m r53m mid ?_ hall
        rcases hwhy with hno | ⟨zones, hz, hzl, hfind, hno⟩
        · exact Or.inl ⟨hno, rfl⟩
        · exact Or.inr (Or.inl ⟨zones, hz, hzl, hfind, hno, rfl⟩)
      · subst hres
        rw [searchLoop, hl] at h
        simp only [Outcome.ret_bind] at h
        cases skip with
        | true =>
          simp only [Bool.true_eq_false, if_false, Outcome.pure_eq, Outcome.ret.injEq,
            Prod.mk.injEq, Except.ok.injEq] at h
          refine ⟨[], c, rest, hz, r53m, rfl, ?_, hname, AllNonMatch.nil r53m, ?_⟩
          · rw [← h.1]
          · exact ⟨zones, hz, records, hzl, hfind, hfound, h.1.symm, Or.inl ⟨rfl, h.2.symm⟩⟩
        | false =>
          simp only [if_true] at h
          cases hns : isNSMatchRecord env r53m (some hz) recordName with
          | panic m => rw [hns] at h; cases h
          | ret nsres =>
            obtain ⟨⟨isMatch, err⟩, mid⟩ := nsres
            rw [hns] at h
            simp only [Outcome.ret_bind] at h
            by_cases hfail : err ≠ none ∨ isMatch = false
            · rw [if_pos hfail] at h
              obtain ⟨pre, c', post, Z, mid', hopts, hZ, hZname, hall, hmatch⟩ := ih mid h
              refine ⟨c :: pre, c', post, Z, mid', by rw [hopts]; rfl, hZ, hZname, ?_, hmatch⟩
              refine AllNonMatch.cons c pre r53m mid mid' ?_ hall
              exact Or.inr (Or.inr ⟨rfl, zones, hz, records, isMatch, err, hzl, hfind,
                hfound, hns, hfail⟩)
            · rw [if_neg hfail] at h
              simp only [Outcome.pure_eq, Outcome.ret.injEq, Prod.mk.injEq,
                Except.ok.injEq] at h
              have hpass : isMatch = true ∧ err = none := by
                constructor
                · cases isMatch
                  · exact absurd (Or.inr rfl) hfail
                  · rfl
                · cases err
                  · rfl
                  · exact absurd (Or.inl (by simp)) hfail
              refine ⟨[], c, rest, hz, r53m, rfl, ?_, hname, AllNonMatch.nil r53m, ?_⟩
              · rw [← h.1]
              · refine ⟨zones, hz, records, hzl, hfind, hfound, h.1.symm, Or.inr ⟨rfl, ?_⟩⟩
                rw [hns, hpass.1, hpass.2, h.2]

/-- The record sets found in a zone are determined by the provider's listings. -/
theorem FoundRecords_unique (env : Env) (recordStream : RecordName) (hz : HostedZone)
    (recordName : Str) (r1 r2 : List ResourceRecordSet)
    (h1 : FoundRecords env recordStream hz recordName r1)
    (h2 : FoundRecords env recordStream hz recordName r2) : r1 = r2 := by
  obtain ⟨l1, hl1, hc1⟩ := h1
  obtain ⟨l2, hl2, hc2⟩ := h2
  rw [hl1] at hl2
  cases hl2
  rcases hc1 with ⟨hA, hr1⟩ | ⟨hE, hW, w1, t1, hw1, ht1, hr1⟩
  · rcases hc2 with ⟨_, hr2⟩ | ⟨hE, hW, _⟩
    · rw [hr1, hr2]
    · rcases hA with hA | hA
      · exact absurd hE hA
      · rw [hW] at hA; cases hA
  · rcases hc2 with ⟨hA, _⟩ | ⟨_, _, w2, t2, hw2, ht2, hr2⟩
    · rcases hA with hA | hA
      · exact absurd hE hA
      · rw [hW] at hA; cases hA
    · rw [hw1] at hw2
      cases hw2
      rw [ht1] at ht2
      cases ht2
      rw [hr1, hr2]

/-- A zone with a failed listing is not a zone in which records are found. -/
theorem NoRecordsObtained_not_found (env : Env) (recordStream : RecordName) (hz : HostedZone)
    (recordName : Str) (records : List ResourceRecordSet)
    (h1 : NoRecordsObtained env recordStream hz recordName)
    (h2 : FoundRecords env recordStream hz recordName records) : False := by
  obtain ⟨l2, hl2, hc2⟩ := h2
  rcases h1 with ⟨err, he⟩ | ⟨l1, w1, err, hl1, hE, hW, hw1, he⟩
  · rw [hl2] at he
    cases he
  · rw [hl1] at hl2
    cases hl2
    rcases hc2 with ⟨hA, _⟩ | ⟨_, _, w2, t2, hw2, ht2, _⟩
    · rcases hA with hA | hA
      · exact absurd hE hA
      · rw [hW] at hA; cases hA
    · rw [hw1] at hw2
      cases hw2
      rw [he] at ht2
      cases ht2

/-- A candidate without a zone of its exact name has no first such zone. -/
theorem NoExactZone_not_find (env : Env) (c : Str) (zones : List HostedZone) (hz : HostedZone)
    (h1 : NoExactZone env c) (hzl : env.ListHostedZonesByName c = .ok zones)
    (hfind : zones.find? (fun z => decide (z.Name = c ++ dot)) = some hz) : False := by
  have hname : hz.Name = c ++ dot := by simpa using List.find?_some hfind
  exact h1 zones hzl hz (List.mem_of_find?_eq_some hfind) hname

/-- No candidate is both a non-match and the successful one. -/
theorem NonMatch_not_IsMatch (env : Env) (skip : Bool) (recordName : Str)
    (recordStream : RecordName) (c : Str) (r53m a1 a2 : Route53Manager)
    (res : GetRecordAliasesResult)
    (h1 : NonMatch env skip recordName recordStream c r53m a1)
    (h2 : IsMatch env skip recordName recordStream c r53m a2 res) : False := by
  obtain ⟨zones, hz, records, hzl, hfind, hfound, _, hns⟩ := h2
  rcases h1 with ⟨hno, _⟩ | ⟨zones1, hz1, hzl1, hfind1, hno, _⟩ |
    ⟨hskip, zones1, hz1, records1, isMatch, err, hzl1, hfind1, _, hns1, hfail⟩
  · exact NoExactZone_not_find env c zones hz hno hzl hfind
  · rw [hzl] at hzl1
    cases hzl1
    rw [hfind] at hfind1
    cases hfind1
    exact NoRecordsObtained_not_found env recordStream hz recordName records hno hfound
  · rw [hzl] at hzl1
    cases hzl1
    rw [hfind] at hfind1
    cases hfind1
    rcases hns with ⟨hs, _⟩ | ⟨_, hpass⟩
    · rw [hskip] at hs
      cases hs
    · rw [hpass] at hns1
      cases hns1
      rcases hfail with hfail | hfail
      · exact hfail rfl
      · cases hfail

/-- The manager behind a non-match is determined. -/
theorem NonMatch_after_unique (env : Env) (skip : Bool) (recordName : Str)
    (recordStream : RecordName) (c : Str) (r53m a1 a2 : Route53Manager)
    (h1 : NonMatch env skip recordName recordStream c r53m a1)
    (h2 : NonMatch env skip recordName recordStream c r53m a2) : a1 = a2 := by
  rcases h1 with ⟨hno1, e1⟩ | ⟨zones1, hz1, hzl1, hfind1, hno1, e1⟩ |
    ⟨_, zones1, hz1, records1, m1, err1, hzl1, hfind1, hfound1, hns1, _⟩
  · rcases h2 with ⟨_, e2⟩ | ⟨_, _, _, _, _, e2⟩ |
      ⟨_, zones2, hz2, _, _, _, hzl2, hfind2, _, _, _⟩
    · rw [e1, e2]
    · rw [e1, e2]
    · exact (NoExactZone_not_find env c zones2 hz2 hno1 hzl2 hfind2).elim
  · rcases h2 with ⟨_, e2⟩ | ⟨_, _, _, _, _, e2⟩ |
      ⟨_, zones2, hz2, records2, _, _, hzl2, hfind2, hfound2, _, _⟩
    · rw [e1, e2]
    · rw [e1, e2]
    · rw [hzl1] at hzl2
      cases hzl2
      rw [hfind1] at hfind2
      cases hfind2
      exact (NoRecordsObtained_not_found env recordStream hz1 recordName records2 hno1
        hfound2).elim
  · rcases h2 with ⟨hno2, _⟩ | ⟨zones2, hz2, hzl2, hfind2, hno2, _⟩ |
      ⟨_, zones2, hz2, _, _, _, hzl2, hfind2, _, hns2, _⟩
    · exact (NoExactZone_not_find env c zones1 hz1 hno2 hzl1 hfind1).elim
    · rw [hzl1] at hzl2
      cases hzl2
      rw [hfind1] at hfind2
      cases hfind2
      exact (NoRecordsObtained_not_found env recordStream hz1 recordName records1 hno2
        hfound1).elim
    · rw [hzl1] at hzl2
      cases hzl2
      rw [hfind1] at hfind2
      cases hfind2
      rw [hns1] at hns2
      cases hns2
      rfl

/-- What the successful candidate gives, and the manager behind it, are determined. -/
theorem IsMatch_unique (env : Env) (skip : Bool) (recordName : Str)
    (recordStream : RecordName) (c : Str) (r53m a1 a2 : Route53Manager)
    (res1 res2 : GetRecordAliasesResult)
    (h1 : IsMatch env skip recordName recordStream c r53m a1 res1)
    (h2 : IsMatch env skip recordName recordStream c r53m a2 res2) :
    a1 = a2 ∧ res1 = res2 := by
  obtain ⟨zones1, hz1, records1, hzl1, hfind1, hfound1, hres1, hns1⟩ := h1
  obtain ⟨zones2, hz2, records2, hzl2, hfind2, hfound2, hres2, hns2⟩ := h2
  rw [hzl1] at hzl2
  cases hzl2
  rw [hfind1] at hfind2
  cases hfind2
  have hrec := FoundRecords_unique env recordStream hz1 recordName records1 records2
    hfound1 hfound2
  subst hrec
  refine ⟨?_, by rw [hres1, hres2]⟩
  rcases hns1 with ⟨hs1, e1⟩ | ⟨hs1, p1⟩
  · rcases hns2 with ⟨_, e2⟩ | ⟨hs2, _⟩
    · rw [e1, e2]
    · rw [hs1] at hs2
      cases hs2
  · rcases hns2 with ⟨hs2, _⟩ | ⟨_, p2⟩
    · rw [hs1] at hs2
      cases hs2
    · rw [p1] at p2
      cases p2
      rfl

/-- The description of a search by its first match has one solution: the candidates
in front, the successful candidate, the result and the manager afterwards are
determined by the candidate list, the manager at the start and the provider. -/
theorem first_match_unique (env : Env) (skip : Bool) (recordName : Str)
    (recordStream : RecordName) (pre : List Str) :
    ∀ (pre' : List Str) (c c' : Str) (post post' : List Str)
      (r53m mid mid' after after' : Route53Manager) (res res' : GetRecordAliasesResult),
      pre ++ c :: post = pre' ++ c' :: post' →
      AllNonMatch env skip recordName recordStream pre r53m mid →
      IsMatch env skip recordName recordStream c mid after res →
      AllNonMatch env skip recordName recordStream pre' r53m mid' →
      IsMatch env skip recordName recordStream c' mid' after' res' →
      pre = pre' ∧ c = c' ∧ post = post' ∧ after = after' ∧ res = res' := by
  induction pre with
  | nil =>
    intro pre' c c' post post' r53m mid mid' after after' res res' heq hall hm hall' hm'
    cases hall
    cases pre' with
    | nil =>
      cases hall'
      simp only [List.nil_append, List.cons.injEq] at heq
      obtain ⟨hc, hpost⟩ := heq
      subst hc
      obtain ⟨ha, hr⟩ := IsMatch_unique env skip recordName recordStream c r53m after after'
        res res' hm hm'
      exact ⟨rfl, rfl, hpost, ha, hr⟩
    | cons x xs =>
      simp only [List.nil_append, List.cons_append, List.cons.injEq] at heq
      obtain ⟨hc, _⟩ := heq
      subst hc
      cases hall' with
      | cons _ _ _ m _ hnon _ =>
        exact (NonMatch_not_IsMatch env skip recordName recordStream c r53m m after res
          hnon hm).elim
  | cons y ys ih =>
    intro pre' c c' post post' r53m mid mid' after after' res res' heq hall hm hall' hm'
    cases hall with
    | cons _ _ _ m _ hnon htail =>
      cases pre' with
      | nil =>
        cases hall'
        simp only [List.nil_append, List.cons_append, List.cons.injEq] at heq
        obtain ⟨hc, _⟩ := heq
        subst hc
        exact (NonMatch_not_IsMatch env skip recordName recordStream y r53m m after' res'
          hnon hm').elim
      | cons x xs =>
        simp only [List.cons_append, List.cons.injEq] at heq
        obtain ⟨hx, htl⟩ := heq
        subst hx
        cases hall' with
        | cons _ _ _ m' _ hnon' htail' =>
          have hmid := NonMatch_after_unique env skip recordName recordStream y r53m m m'
            hnon hnon'
          subst hmid
          obtain ⟨h1, h2, h3, h4, h5⟩ := ih xs c c' post post' m mid mid' after after' res res'
            htl htail hm htail' hm'
          exact ⟨by rw [h1], h2, h3, h4, h5⟩

/-! ## Provider errors -/

theorem LookupRecord_list_error (env : Env) (c record : Str) (recordName : RecordName)
    (err : Err) (h : env.ListHostedZonesByName c = .error err) :
    LookupRecord env c record recordName = .ret (none, none, some err) := by
  unfold LookupRecord
  rw [h]

/-- A failed listing of the record sets of the zone, the first one or the one of the
wildcard retry, makes `LookupRecord` return that error with nil results. -/
theorem LookupRecord_records_error (env : Env) (c record : Str) (recordName : RecordName)
    (err : Err) (zones : List HostedZone) (hz : HostedZone)
    (hzl : env.ListHostedZonesByName c = .ok zones)
    (hfind : zones.find? (fun z => decide (z.Name = c ++ dot)) = some hz)
    (h : getRecordAliases env record hz.Id = .error err ∨
      ∃ listed w, getRecordAliases env record hz.Id = .ok listed ∧
        filterLoop recordName listed [] = .ret [] ∧ recordName.HasWildCard = false ∧
        recordName.GetWithWildCard = .ret (.ok w) ∧
        getRecordAliases env w hz.Id = .error err) :
    LookupRecord env c record recordName = .ret (none, none, some err) := by
  have hlen : ¬ zones.length = 0 := by
    intro h0
    rw [List.length_eq_zero] at h0
    rw [h0] at hfind
    cases hfind
  unfold LookupRecord
  rw [hzl]
  simp only
  rw [if_neg hlen, lookupLoop_find, hfind]
  simp only
  unfold lookupInZone getRecordsAliasesAndFilter
  dsimp only
  rcases h with h | ⟨listed, w, h1, h2, h3, h4, h5⟩
  · rw [h]
    rfl
  · rw [h1]
    simp only [h2, Outcome.ret_bind, Outcome.pure_eq, List.length_nil, h3, and_self, if_true,
      h4, h5]

/-- C11, as the code has it: when the provider call that lists hosted zones, or the
one that lists record sets (first listing or wildcard retry), returns an error for the
candidate `c`, `LookupRecord` hands that error to `GetRecordSetAliases`, whose loop
goes on with the next candidate; with no candidate left the result is
`NoRecordMatchFound`, so the provider error does not reach the caller. -/
theorem searchLoop_continues_after_provider_error (env : Env) (skip : Bool)
    (recordName : Str) (recordStream : RecordName) (c : Str) (rest : List Str)
    (r53m : Route53Manager) (err : Err)
    (h : env.ListHostedZonesByName c = .error err ∨
      ∃ zones hz, env.ListHostedZonesByName c = .ok zones ∧
        zones.find? (fun z => decide (z.Name = c ++ dot)) = some hz ∧
        (getRecordAliases env recordName hz.Id = .error err ∨
          ∃ listed w, getRecordAliases env recordName hz.Id = .ok listed ∧
            filterLoop recordStream listed [] = .ret [] ∧ recordStream.HasWildCard = false ∧
            recordStream.GetWithWildCard = .ret (.ok w) ∧
            getRecordAliases env w hz.Id = .error err)) :
    LookupRecord env c recordName recordStream = .ret (none, none, some err) ∧
    searchLoop env skip recordName recordStream (c :: rest) r53m =
      searchLoop env skip recordName recordStream rest r53m ∧
    searchLoop env skip recordName recordStream [] r53m =
      .ret (.error "NoRecordMatchFound", r53m) := by
  have hl : LookupRecord env c recordName recordStream = .ret (none, none, some err) := by
    rcases h with h | ⟨zones, hz, hzl, hfind, h⟩
    · exact LookupRecord_list_error env c recordName recordStream err h
    · exact LookupRecord_records_error env c recordName recordStream err zones hz hzl hfind h
  exact ⟨hl, searchLoop_skip_error env skip recordName recordStream c rest r53m none none err hl,
    rfl⟩

/-- C11 at a provider that refuses every listing of hosted zones. -/
theorem searchLoop_continues_after_provider_error_witness :
    LookupRecord deniedEnv "a.b.c".toList "a.b.c".toList tokenABC
      = .ret (none, none, some "AccessDenied") ∧
    searchLoop deniedEnv true "a.b.c".toList tokenABC ["a.b.c".toList, "b.c".toList] newManager =
      searchLoop deniedEnv true "a.b.c".toList tokenABC ["b.c".toList] newManager ∧
    searchLoop deniedEnv true "a.b.c".toList tokenABC [] newManager =
      .ret (.error "NoRecordMatchFound", newManager) :=
  searchLoop_continues_after_provider_error deniedEnv true "a.b.c".toList tokenABC
    "a.b.c".toList ["b.c".toList] newManager "AccessDenied" (Or.inl rfl)

/-- C11 refuted as stated: with a provider that answers every listing of hosted zones
with `AccessDenied`, and with one that answers every listing of record sets with
`Throttling`, `GetRecordSetAliases("a.b.c", true)` returns `NoRecordMatchFound`, not
the provider error. -/
theorem GetRecordSetAliases_swallows_provider_error :
    deniedEnv.ListHostedZonesByName "a.b.c".toList = .error "AccessDenied" ∧
    GetRecordSetAliases deniedEnv newManager "a.b.c".toList true
      = .ret (.error "NoRecordMatchFound", newManager) ∧
    LookupRecord throttledEnv "b.c".toList "a.b.c".toList tokenABC
      = .ret (none, none, some "Throttling") ∧
    GetRecordSetAliases throttledEnv newManager "a.b.c".toList true
      = .ret (.error "NoRecordMatchFound", newManager) :=
  ⟨rfl, rfl, by decide, rfl⟩

/-! ## Malformed input -/

/-- C14, as the code has it: for a raw input for which `NewRecordName` fails, and for
an input whose token is the single wildcard label, `GetRecordSetAliases` does not
return: it stops in `panic(err)` with the error of `NewRecordName`, respectively with
`InvalidRecordWildCard`. -/
theorem GetRecordSetAliases_malformed_panics (env : Env) (r53m : Route53Manager) (raw : Str)
    (skip : Bool) (err : Err)
    (h : NewRecordName env raw = .ret (.error err) ∨
      ∃ token, NewRecordName env raw = .ret (.ok token) ∧ token.splittedURL = [WildCard] ∧
        err = "InvalidRecordWildCard") :
    GetRecordSetAliases env r53m raw skip = .panic err := by
  rcases h with h | ⟨token, hnew, hlabels, herr⟩
  · exact GetRecordSetAliases_panic_new env r53m raw skip err h
  · subst herr
    apply GetRecordSetAliases_panic_options env r53m raw skip token _ hnew
    have hwf := (NewRecordName_wellFormed env raw token hnew).1
    have hwc : token.hasWildCard = true := hwf.2.2.mpr (by rw [hlabels]; rfl)
    simp [RecordName.GetAllOptionsForZoneName, hlabels, hwc]

/-- C14 at the inputs `"a.b/%zz"` (which `url.Parse` rejects) and `"*"`. -/
theorem GetRecordSetAliases_malformed_panics_witness :
    GetRecordSetAliases netURLEnv newManager "a.b/%zz".toList true = .panic "invalid URL escape" ∧
    GetRecordSetAliases netURLEnv newManager "*".toList false = .panic "InvalidRecordWildCard" :=
  ⟨GetRecordSetAliases_malformed_panics netURLEnv newManager "a.b/%zz".toList true
      "invalid URL escape" (Or.inl (by decide)),
   GetRecordSetAliases_malformed_panics netURLEnv newManager "*".toList false
      "InvalidRecordWildCard" (Or.inr ⟨tokenStar, by decide, rfl, rfl⟩)⟩

/-- C14 refuted as stated: for the input `"*"`, whose token is the single wildcard
label, `GetRecordSetAliases` panics; it returns no error to its caller. -/
theorem GetRecordSetAliases_wildcard_root_aborts :
    NewRecordName netURLEnv "*".toList = .ret (.ok tokenStar) ∧
    GetRecordSetAliases netURLEnv newManager "*".toList true = .panic "InvalidRecordWildCard" ∧
    ¬ ∃ err after, GetRecordSetAliases netURLEnv newManager "*".toList true
        = .ret (.error err, after) := by
  have hp : GetRecordSetAliases netURLEnv newManager "*".toList true
      = .panic "InvalidRecordWildCard" := rfl
  refine ⟨by decide, hp, ?_⟩
  rintro ⟨err, after, h⟩
  rw [hp] at h
  cases h

/-- C13 at the input `"x.y"` on an account without a zone `x.y.` or `y.`. -/
theorem GetRecordSetAliases_no_zone_witness :
    GetRecordSetAliases netURLEnv newManager "x.y".toList false
      = .ret (.error "NoRecordMatchFound", newManager) :=
  GetRecordSetAliases_no_zone netURLEnv newManager "x.y".toList false
    { rawURL := "x.y".toList, parsedURL := "x.y".toList,
      splittedURL := ["x".toList, "y".toList], hasWildCard := false }
    ["x.y".toList, "y".toList] (by decide) (by decide)
    (by
      intro c hc zones hz z hzmem
      have hnil : netURLEnv.ListHostedZonesByName c = .ok [] := by
        simp only [List.mem_cons, List.mem_singleton, List.not_mem_nil, or_false] at hc
        rcases hc with hc | hc <;> subst hc <;> decide
      rw [hnil] at hz
      cases hz
      cases hzmem)

/-! ## Construction -/

/-- C15, on the code: `url.Parse("http://")` has the empty host, `StripRecord("")`
returns the single empty piece, and `NewRecordName` on `""` and on `"http://"` drops
that piece and panics in `splitted[0]`; it returns neither an error nor a
`RecordName`. -/
theorem NewRecordName_empty_host_panics :
    ParseHostname "http://".toList = some (.ok []) ∧
    StripRecord netURLEnv "".toList = .ok [[]] ∧
    NewRecordName netURLEnv "".toList = .panic "index out of range" ∧
    NewRecordName netURLEnv "http://".toList = .panic "index out of range" := by
  decide

/-- C16: a single trailing dot does not change the token.  For a non-empty host string
`h` that does not end in `"."` (a string that `StripRecord` reads as its own host, with
and without one more `"."`), `NewRecordName` on `h` and on `h + "."` gives the same
label list, the same `parsedURL`, equal to `h`, and the same `hasWildCard`; and for
every `RecordName` that `NewRecordName` returns, `parsedURL` is the labels joined by
`"."` and `hasWildCard` is true iff the first label is `"*"`. -/
theorem NewRecordName_trailing_dot (env : Env) (h : Str) (hne : h ≠ [])
    (hlast : h.getLast? ≠ some '.')
    (hhost : StripRecord env h = .ok (Split h '.'))
    (hhostdot : StripRecord env (h ++ dot) = .ok (Split (h ++ dot) '.')) :
    (∃ r r', NewRecordName env h = .ret (.ok r) ∧ NewRecordName env (h ++ dot) = .ret (.ok r') ∧
      r.splittedURL = r'.splittedURL ∧ r.parsedURL = h ∧ r'.parsedURL = h ∧
      r.hasWildCard = r'.hasWildCard) ∧
    (∀ raw r, NewRecordName env raw = .ret (.ok r) →
      r.parsedURL = Join r.splittedURL dot ∧
        (r.hasWildCard = true ↔ r.splittedURL.head? = some WildCard)) := by
  constructor
  · obtain ⟨init, last, hsplit, hlastne⟩ := Split_last_nonempty h '.' hne hlast
    have h1 := (NewRecordName_of_pieces env h init last (by rw [hhost, hsplit])).1 hlastne
    have hdotsplit : Split (h ++ dot) '.' = (init ++ [last]) ++ [[]] := by
      rw [← hsplit]
      exact Split_append_sep h '.'
    have h2 := (NewRecordName_of_pieces env (h ++ dot) (init ++ [last]) []
      (by rw [hhostdot, hdotsplit])).2.1 rfl (by simp)
    refine ⟨_, _, h1, h2, rfl, ?_, ?_, rfl⟩
    · show Join (init ++ [last]) dot = h
      rw [← hsplit]
      exact Join_Split h
    · show Join (init ++ [last]) dot = h
      rw [← hsplit]
      exact Join_Split h
  · intro raw r hr
    have hwf := (NewRecordName_wellFormed env raw r hr).1
    exact ⟨hwf.2.1, hwf.2.2⟩

/-- C16 at the host `"www.example.com"`: with and without the trailing dot the labels
are `www`, `example`, `com`. -/
theorem NewRecordName_trailing_dot_witness :
    ∃ r r', NewRecordName netURLEnv "www.example.com".toList = .ret (.ok r) ∧
      NewRecordName netURLEnv ("www.example.com".toList ++ dot) = .ret (.ok r') ∧
      r.splittedURL = r'.splittedURL ∧ r.parsedURL = "www.example.com".toList ∧
      r'.parsedURL = "www.example.com".toList ∧ r.hasWildCard = r'.hasWildCard :=
  (NewRecordName_trailing_dot netURLEnv "www.example.com".toList (by decide) (by decide)
    (by decide) (by decide)).1

/-! ## Path and query -/

/-- C17, as the code has it: for a host `h` made of letters, digits, `-`, `*` and `.`
and every `p` and `q`, `StripRecord` on `"https://" + h + "/" + p + "?" + q`, on
`"http://" + h + "/" + p + "?" + q` and on `h + "/" + p + "?" + q` returns `h` split on
`"."`, never pieces of `p` or `q`, exactly when `url.Parse` accepts `p + "?" + q`
behind the host (no control character before the first `"#"`, no malformed percent
escape in the path or in the fragment), and the error of `url.Parse` otherwise.  Where
`p` holds no `"#"` and no `"?"` and `q` no `"#"`, `url.Parse` accepts exactly when `p`
and `q` hold no control character and every `"%"` of `p` is followed by two
hexadecimal digits. -/
theorem StripRecord_path_query (env : Env) (henv : env.AgreesWithNetURL) (h p q : Str)
    (hh : ∀ c ∈ h, hostChar c = true) (raw : Str)
    (hraw : raw = "https://".toList ++ h ++ "/".toList ++ p ++ "?".toList ++ q ∨
      raw = "http://".toList ++ h ++ "/".toList ++ p ++ "?".toList ++ q ∨
      raw = h ++ "/".toList ++ p ++ "?".toList ++ q) :
    (acceptedTail (p ++ "?".toList ++ q) = true → StripRecord env raw = .ok (Split h '.')) ∧
    (acceptedTail (p ++ "?".toList ++ q) = false → ∃ err, StripRecord env raw = .error err) ∧
    ('#' ∉ p → '?' ∉ p → '#' ∉ q →
      acceptedTail (p ++ "?".toList ++ q)
        = (!stringContainsCTLByte p && !stringContainsCTLByte q && validEscapes p)) := by
  have hraw' : raw = "https://".toList ++ h ++ "/".toList ++ (p ++ '?' :: q) ∨
      raw = "http://".toList ++ h ++ "/".toList ++ (p ++ '?' :: q) ∨
      raw = h ++ "/".toList ++ (p ++ '?' :: q) := by
    rcases hraw with e | e | e
    · exact Or.inl (by rw [e]; simp)
    · exact Or.inr (Or.inl (by rw [e]; simp))
    · exact Or.inr (Or.inr (by rw [e]; simp))
  have ht : p ++ "?".toList ++ q = p ++ '?' :: q := by simp
  have hmain := StripRecord_plain env henv h (p ++ '?' :: q) hh raw hraw'
  rw [ht]
  exact ⟨hmain.1, hmain.2, acceptedTail_path_query p q⟩

/-- C17 at `"https://www.example.com/p?x=1"` and at
`"https://www.example.com/a%20b?x=1"`, whose path holds a percent escape: the pieces
are `www`, `example`, `com`, and the token's `GetParsedURL()` is `"www.example.com"`. -/
theorem StripRecord_path_query_witness :
    StripRecord netURLEnv "https://www.example.com/p?x=1".toList
      = .ok ["www".toList, "example".toList, "com".toList] ∧
    StripRecord netURLEnv "https://www.example.com/a%20b?x=1".toList
      = .ok ["www".toList, "example".toList, "com".toList] ∧
    (∃ r, NewRecordName netURLEnv "https://www.example.com/p?x=1".toList = .ret (.ok r) ∧
      r.GetParsedURL = "www.example.com".toList) :=
  ⟨(StripRecord_path_query netURLEnv netURLEnv_agrees "www.example.com".toList "p".toList
      "x=1".toList (by decide) "https://www.example.com/p?x=1".toList (Or.inl rfl)).1
      (by decide),
   (StripRecord_path_query netURLEnv netURLEnv_agrees "www.example.com".toList "a%20b".toList
      "x=1".toList (by decide) "https://www.example.com/a%20b?x=1".toList (Or.inl rfl)).1
      (by decide),
   ⟨{ rawURL := "https://www.example.com/p?x=1".toList, parsedURL := "www.example.com".toList,
      splittedURL := ["www".toList, "example".toList, "com".toList], hasWildCard := false },
    by decide, rfl⟩⟩

/-- C17 refuted as stated: for the host `example.com`, the path `%zz` and the query
`x=1`, `StripRecord("https://example.com/%zz?x=1")` returns the error of `url.Parse`,
not `example.com` split on `"."`. -/
theorem StripRecord_malformed_escape :
    (∀ c ∈ "example.com".toList, hostChar c = true) ∧
    StripRecord netURLEnv ("https://".toList ++ "example.com".toList ++ "/".toList
        ++ "%zz".toList ++ "?".toList ++ "x=1".toList) = .error "invalid URL escape" ∧
    StripRecord netURLEnv ("https://".toList ++ "example.com".toList ++ "/".toList
        ++ "%zz".toList ++ "?".toList ++ "x=1".toList) ≠ .ok (Split "example.com".toList '.') := by
  decide

/-! ## First match -/

/-- C18: whenever `GetRecordSetAliases` returns a result, there is a candidate `c` of
the list from `GetAllOptionsForZoneName` such that the hosted zone returned is the
first zone named `c + "."` of the provider's answer for `c`, returned with the record
sets found in it (from the listing by the token's name or, when that holds no match
and the token is no wildcard, from the listing by the wildcard form) and, with
`skipNSVerification` false, after a passed nameserver verification; and every
candidate in front of `c` in that list was a non-match, skipped by the code: no zone
of that exact name in the provider's answer, no record obtained from that zone
because a listing of its record sets failed, or, with `skipNSVerification` false, a
failed nameserver verification. -/
theorem GetRecordSetAliases_first_match (env : Env) (r53m : Route53Manager) (raw : Str)
    (skip : Bool) (res : GetRecordAliasesResult) (after : Route53Manager)
    (h : GetRecordSetAliases env r53m raw skip = .ret (.ok res, after)) :
    ∃ token opts pre c post Z mid,
      NewRecordName env raw = .ret (.ok token) ∧
      token.GetAllOptionsForZoneName = .ret (.ok opts) ∧
      opts = pre ++ c :: post ∧ res.HostedZone = some Z ∧ Z.Name = c ++ dot ∧
      AllNonMatch env skip token.GetParsedURL token pre r53m mid ∧
      IsMatch env skip token.GetParsedURL token c mid after res := by
  unfold GetRecordSetAliases at h
  cases hnew : NewRecordName env raw with
  | panic m => rw [hnew] at h; cases h
  | ret tokenOrErr =>
    rw [hnew] at h
    simp only [Outcome.ret_bind] at h
    cases tokenOrErr with
    | error err => cases h
    | ok token =>
      simp only at h
      have hwf := (NewRecordName_wellFormed env raw token hnew).1
      cases hopts : token.GetAllOptionsForZoneName with
      | panic m => rw [hopts] at h; cases h
      | ret optsOrErr =>
        rw [hopts] at h
        simp only [Outcome.ret_bind] at h
        cases optsOrErr with
        | error err => cases h
        | ok opts =>
          simp only at h
          obtain ⟨pre, c, post, Z, mid, h1, h2, h3, h4, h5⟩ :=
            searchLoop_ok env skip token.GetParsedURL token hwf res after opts r53m h
          exact ⟨token, opts, pre, c, post, Z, mid, rfl, hopts, h1, h2, h3, h4, h5⟩

/-- C18 at the input `"a.b.c"` on the account with the zone `b.c.` whose record set
`*.b.c.` is found by the listing from the wildcard form only. -/
theorem GetRecordSetAliases_first_match_witness :
    ∃ token opts pre c post Z mid,
      NewRecordName retryEnv "a.b.c".toList = .ret (.ok token) ∧
      token.GetAllOptionsForZoneName = .ret (.ok opts) ∧
      opts = pre ++ c :: post ∧ some zoneBC = some Z ∧ Z.Name = c ++ dot ∧
      AllNonMatch retryEnv true token.GetParsedURL token pre newManager mid ∧
      IsMatch retryEnv true token.GetParsedURL token c mid newManager
        { Region := "us-east-1".toList, Records := [recordStarBC], HostedZone := some zoneBC,
          Stream := tokenABC } :=
  GetRecordSetAliases_first_match retryEnv newManager "a.b.c".toList true
    { Region := "us-east-1".toList, Records := [recordStarBC], HostedZone := some zoneBC,
      Stream := tokenABC } newManager rfl

/-! ## Nameserver verification -/

/-- With verification on, a candidate whose zone has been found is passed over when
the zone's name servers and the domain's name servers, neither list repeating a
hostname, have no hostname in common. -/
theorem searchLoop_skip_ns_mismatch (env : Env) (recordName : Str) (recordStream : RecordName)
    (c : Str) (rest : List Str) (r53m mid : Route53Manager) (hz : HostedZone)
    (records : List ResourceRecordSet) (hns rns : List Str)
    (hl : LookupRecord env c recordName recordStream = .ret (some hz, some records, none))
    (hh : GetHZNameservers env r53m hz.Id = ((hns, none), mid))
    (hr : GetNameservers env mid recordName = (rns, none))
    (hnd1 : (hns.filter (fun n => decide (n ≠ []))).Nodup)
    (hnd2 : (rns.filter (fun n => decide (n ≠ []))).Nodup)
    (hno : ¬ ∃ h, h ≠ [] ∧ h ∈ hns ∧ h ∈ rns) :
    searchLoop env false recordName recordStream (c :: rest) r53m =
      searchLoop env false recordName recordStream rest mid := by
  have hmatch : IsNSMatch hns rns = false := by
    cases hm : IsNSMatch hns rns with
    | false => rfl
    | true => exact absurd ((IsNSMatch_common hns rns).2 hnd1 hnd2 hm) hno
  have hns' : isNSMatchRecord env r53m (some hz) recordName
      = .ret ((false, some "ErrNoNSMatch"), mid) := by
    simp only [isNSMatchRecord, hh, hr, hmatch, if_true]
  rw [searchLoop, hl]
  simp only [Outcome.ret_bind, if_true, hns']
  simp

/-- C12, on the code: the delegation set of the zone `b.c.` names `ns-1.example.com.`
twice, the lookup for `a.b.c.` gives `ns-2.example.org.`; the two lists have no
hostname in common, `IsNSMatch` is true all the same, and
`GetRecordSetAliases("a.b.c", false)` returns the zone `b.c.`. -/
theorem GetRecordSetAliases_returns_unverified_zone :
    (GetHZNameservers delegatedEnv newManager zoneBC.Id).1
      = (["ns-1.example.com".toList, "ns-1.example.com".toList], none) ∧
    GetNameservers delegatedEnv newManager "a.b.c".toList
      = (["ns-2.example.org".toList], none) ∧
    ¬ (∃ h : Str, h ∈ ["ns-1.example.com".toList, "ns-1.example.com".toList] ∧
        h ∈ ["ns-2.example.org".toList]) ∧
    IsNSMatch ["ns-1.example.com".toList, "ns-1.example.com".toList]
      ["ns-2.example.org".toList] = true ∧
    ∃ after, GetRecordSetAliases delegatedEnv newManager "a.b.c".toList false
      = .ret (.ok { Region := "us-east-1".toList, Records := [recordStarBC],
                    HostedZone := some zoneBC, Stream := tokenABC }, after) := by
  refine ⟨by decide, by decide, ?_, by decide, ⟨_, rfl⟩⟩
  rintro ⟨h, h1, h2⟩
  simp only [List.mem_cons, List.mem_singleton, List.not_mem_nil, or_false, or_self] at h1 h2
  rw [h1] at h2
  revert h2
  decide

/-! ## Hosted-zone id and the cache -/

/-- Where the text behind `"/hostedzone/"` is empty or starts with a byte outside
`/ h o s t e d z n`, `strings.TrimLeft` with that cutset removes just the prefix. -/
theorem TrimLeft_hostedzone (x : Str)
    (hx : ∀ c, x.head? = some c → c ∉ "/hostedzone/".toList) :
    TrimLeft ("/hostedzone/".toList ++ x) "/hostedzone/".toList = x := by
  unfold TrimLeft
  rw [List.dropWhile_append_of_pos (by decide)]
  cases x with
  | nil => rfl
  | cons c cs =>
    have := hx c rfl
    rw [List.dropWhile_cons_of_neg (by simpa using this)]

/-- C19, on the code: for the id `"/hostedzone/test-zone"` `strings.TrimLeft` leaves
`"-zone"`, not `"test-zone"`, and so does it for the id `"test-zone"` that has no such
prefix; the provider knows the zone `test-zone`, and `GetHZNameservers` asks for
`-zone` and returns the provider's error. -/
theorem GetHZNameservers_trims_cutset :
    TrimLeft "/hostedzone/test-zone".toList "/hostedzone/".toList = "-zone".toList ∧
    TrimLeft "test-zone".toList "/hostedzone/".toList = "-zone".toList ∧
    delegatedEnv.GetHostedZone "test-zone".toList = .ok (some ["ns-3.example.net.".toList]) ∧
    delegatedEnv.GetHostedZone "-zone".toList = .error "NoSuchHostedZone" ∧
    (GetHZNameservers delegatedEnv newManager "/hostedzone/test-zone".toList).1
      = ([], some "NoSuchHostedZone") ∧
    (GetHZNameservers delegatedEnv newManager "test-zone".toList).1
      = ([], some "NoSuchHostedZone") := by
  decide

/-- A successful fetch in `GetHZNameservers` stores the returned list under the
trimmed id and leaves the other keys as they were. -/
theorem GetHZNameservers_populates (env : Env) (r53m : Route53Manager) (hzId : Str)
    (nameServers : List Str)
    (hmiss : r53m.nameservers (TrimLeft hzId "/hostedzone/".toList) = none)
    (hok : env.GetHostedZone (TrimLeft hzId "/hostedzone/".toList) = .ok (some nameServers)) :
    (GetHZNameservers env r53m hzId).1 = (nameServers.map (fun ns => TrimRight ns dot), none) ∧
    (GetHZNameservers env r53m hzId).2.nameservers (TrimLeft hzId "/hostedzone/".toList)
      = some (nameServers.map (fun ns => TrimRight ns dot)) ∧
    ∀ key, key ≠ TrimLeft hzId "/hostedzone/".toList →
      (GetHZNameservers env r53m hzId).2.nameservers key = r53m.nameservers key := by
  unfold GetHZNameservers
  simp only [hmiss, hok]
  refine ⟨trivial, by simp, ?_⟩
  intro key hkey
  simp only [String.toList] at hkey
  simp [hkey]

/-- C20, on the code: a successful `GetNameservers("a.b.c")` on a manager without an
entry for `a.b.c` returns the looked-up list and stores nothing (the method has no
write to `nameservers`), so the next call looks up again and, the resolver failing by
then, returns its error; after `isNSMatchRecord` the map holds the entry for the zone
id `Z1` and none for the domain. -/
theorem GetNameservers_does_not_cache :
    newManager.nameservers "a.b.c".toList = none ∧
    GetNameservers delegatedEnv newManager "a.b.c".toList
      = (["ns-2.example.org".toList], none) ∧
    GetNameservers delegatedEnvLater newManager "a.b.c".toList = ([], some "no such host") ∧
    ∃ verdict after, isNSMatchRecord delegatedEnv newManager (some zoneBC) "a.b.c".toList
        = .ret (verdict, after) ∧
      after.nameservers "Z1".toList
        = some ["ns-1.example.com".toList, "ns-1.example.com".toList] ∧
      after.nameservers "a.b.c".toList = none ∧
      GetNameservers delegatedEnvLater after "a.b.c".toList = ([], some "no such host") := by
  refine ⟨rfl, by decide, by decide, ⟨_, _, rfl, by decide, by decide, by decide⟩⟩

/-- The model of `url.Parse` and `Hostname` on `http://host` with a plain host and
nothing behind it: the host. -/
theorem ParseHostname_host_only (h : Str) (hh : ∀ c ∈ h, hostChar c = true) :
    ParseHostname ('h' :: 't' :: 't' :: 'p' :: ':' :: '/' :: '/' :: h) = some (.ok h) := by
  have hall : ∀ c ∈ 'h' :: 't' :: 't' :: 'p' :: ':' :: '/' :: '/' :: h,
      c ≠ '#' ∧ c ≠ '?' ∧ (decide (c.toNat < 32) || decide (c.toNat = 127)) = false := by
    intro c hc
    simp only [List.mem_cons] at hc
    rcases hc with hc | hc | hc | hc | hc | hc | hc | hc
    all_goals first
      | (subst hc; decide)
      | exact ⟨(hostChar_facts c (hh c hc)).1, (hostChar_facts c (hh c hc)).2.1,
          (hostChar_facts c (hh c hc)).2.2.2.2⟩
  have hu : (Cut ('h' :: 't' :: 't' :: 'p' :: ':' :: '/' :: '/' :: h) '#')
      = ('h' :: 't' :: 't' :: 'p' :: ':' :: '/' :: '/' :: h, []) := by
    have h1 : ('h' :: 't' :: 't' :: 'p' :: ':' :: '/' :: '/' :: h).takeWhile
        (fun c => decide (c ≠ '#')) = 'h' :: 't' :: 't' :: 'p' :: ':' :: '/' :: '/' :: h := by
      rw [List.takeWhile_eq_self_iff]
      intro c hc
      simpa using (hall c hc).1
    have h2 : ('h' :: 't' :: 't' :: 'p' :: ':' :: '/' :: '/' :: h).dropWhile
        (fun c => decide (c ≠ '#')) = [] := by
      rw [List.dropWhile_eq_nil_iff]
      intro c hc
      simpa using (hall c hc).1
    simp only [Cut, h1, h2, List.tail_nil]
  have hctl : stringContainsCTLByte ('h' :: 't' :: 't' :: 'p' :: ':' :: '/' :: '/' :: h) = false := by
    unfold stringContainsCTLByte
    rw [List.any_eq_false]
    intro c hc
    simp [(hall c hc).2.2]
  have hq : cutQuery ('/' :: '/' :: h) = '/' :: '/' :: (h ++ []) := by
    have hnoq : ∀ c ∈ '/' :: '/' :: h, c ≠ '?' :=
      fun c hc => (hall c (by simp only [List.mem_cons] at hc ⊢; tauto)).2.1
    rw [cutQuery_eq]
    simp only [Cut, List.append_nil]
    rw [List.takeWhile_eq_self_iff]
    intro c hc
    simpa using hnoq c hc
  unfold ParseHostname
  simp only [hu]
  unfold parseHostname
  rw [hctl, if_neg (by simp), if_neg (by simp), getScheme_http]
  simp only [hq]
  rw [parseRest_plain _ h [] (by simp) hh (Or.inl rfl)]
  rfl

/-- A plain host carries no `http://` or `https://` prefix. -/
theorem no_scheme_prefix_host (h : Str) (hh : ∀ c ∈ h, hostChar c = true) :
    HasPrefix h "http://".toList = false ∧ HasPrefix h "https://".toList = false := by
  have hcolon : ':' ∉ h := fun hm => (hostChar_facts _ (hh _ hm)).2.2.2.1 rfl
  constructor
  · rw [Bool.eq_false_iff]
    intro hp
    exact hcolon ((List.isPrefixOf_iff_prefix.mp hp).subset (by decide))
  · rw [Bool.eq_false_iff]
    intro hp
    exact hcolon ((List.isPrefixOf_iff_prefix.mp hp).subset (by decide))

/-- Every plain host is a host string: `StripRecord` returns it split on `"."`. -/
theorem StripRecord_host_only (env : Env) (henv : env.AgreesWithNetURL) (h : Str)
    (hh : ∀ c ∈ h, hostChar c = true) : StripRecord env h = .ok (Split h '.') := by
  have hno := no_scheme_prefix_host h hh
  have hhost := (henv ('h' :: 't' :: 't' :: 'p' :: ':' :: '/' :: '/' :: h)
    (Or.inl (by simp [HasPrefix]))).1 _ (ParseHostname_host_only h hh)
  simp only [String.toList] at hno
  simp only [StripRecord, String.toList, hno.1, hno.2, and_self, if_true, List.cons_append,
    List.nil_append, hhost]

end Route53
